import Mathlib

/-
Shallow embedding of abseil's inlined-vector storage layer
(absl/container/internal/inlined_vector.h).

The embedding models the observable state the claims speak about:

* an allocator, as a supply of fresh buffer identifiers plus the set of
  currently outstanding buffers (each with its capacity and per-slot
  contents) and a log of every deallocate call;
* the Storage object, with its size count, its allocated bit, and the
  union that overlays the heap pointer/capacity pair with the inline
  element arena; writing into the inline arena while the union holds the
  heap fields tramples those fields, exactly as in the C++ union;
* element slots as `Option` values: `some v` is a live element holding
  `v`, `none` is raw (unconstructed) memory;
* value adapters as a pure value stream `vals : Nat → α` together with a
  `throws : Nat → Bool` schedule saying which invocation of
  ConstructNext/AssignNext raises; the helpers and operations return
  `Except`, the error carrying the post-unwind world (including the
  effect of AllocationTransaction's destructor, which the C++ runtime
  runs while the exception propagates).
-/

set_option maxHeartbeats 1000000

namespace InlinedVectorModel

/-- A value adapter: a cursor over a value stream. `vals k` is the value the
adapter produces on its k-th invocation, and `throws k` says whether that
invocation (element construction or assignment) raises an exception. -/
structure Adapter (α : Type) where
  vals : Nat → α
  throws : Nat → Bool

/-- One outstanding allocator buffer: its identifier, the capacity it was
allocated with, and its `cap` slots. -/
structure Buf (α : Type) where
  ptr : Nat
  cap : Nat
  slots : List (Option α)

/-- The allocator: a counter supplying fresh buffer identifiers, the list of
outstanding buffers (most recent first), and the log of deallocate calls. -/
structure AllocState (α : Type) where
  nextPtr : Nat
  bufs : List (Buf α)
  deallocLog : List (Nat × Nat)

/-- AllocatorTraits::allocate: hand out a fresh buffer of `n` raw slots. -/
def AllocState.allocate (a : AllocState α) (n : Nat) : Nat × AllocState α :=
  (a.nextPtr,
   { nextPtr := a.nextPtr + 1,
     bufs := ⟨a.nextPtr, n, List.replicate n none⟩ :: a.bufs,
     deallocLog := a.deallocLog })

/-- AllocatorTraits::deallocate: retire the buffer named `p` and log the
call together with the capacity passed to it. -/
def AllocState.deallocate (a : AllocState α) (p c : Nat) : AllocState α :=
  { a with bufs := a.bufs.filter (fun b => b.ptr != p),
           deallocLog := a.deallocLog ++ [(p, c)] }

/-- The slots of the outstanding buffer named `base` (empty if retired). -/
def AllocState.readBuf (a : AllocState α) (base : Nat) : List (Option α) :=
  match a.bufs.find? (fun b => b.ptr == base) with
  | some b => b.slots
  | none => []

/-- Overwrite slot `i` of the buffer named `base`. -/
def AllocState.writeBufSlot (a : AllocState α) (base i : Nat) (v : Option α) :
    AllocState α :=
  { a with bufs := a.bufs.map fun b =>
      if b.ptr == base then { b with slots := b.slots.set i v } else b }

/-- Every outstanding buffer identifier is below the fresh-identifier
counter (true of every allocator state the model ever produces). -/
def AllocState.fresh (a : AllocState α) : Prop :=
  ∀ b ∈ a.bufs, b.ptr < a.nextPtr

/-- The `(ptr, cap)` outline of the outstanding buffers, ignoring contents. -/
def AllocState.shape (a : AllocState α) : List (Nat × Nat) :=
  a.bufs.map fun b => (b.ptr, b.cap)

/-- The Storage union `Data`: either the `Allocated` fields (heap pointer
and capacity) or the `Inlined` arena are live. -/
inductive UnionData (α : Type) where
  | allocated (ptr cap : Nat)
  | inlined (slots : List (Option α))

/-- Storage, with the packed size-and-is-allocated word modelled as its two
components (the source packs them as `size << 1 | is_allocated`, which the
spec itself calls a footprint optimization). -/
structure Storage (α : Type) where
  size : Nat
  isAllocated : Bool
  data : UnionData α

/-- Storage::GetAllocatedData. Reading it while the union holds the inline
arena is reading garbage; the model returns 0 there (no operation does so). -/
def Storage.getAllocatedData (st : Storage α) : Nat :=
  match st.data with
  | .allocated p _ => p
  | .inlined _ => 0

/-- Storage::GetAllocatedCapacity, with the same garbage convention. -/
def Storage.getAllocatedCapacity (st : Storage α) : Nat :=
  match st.data with
  | .allocated _ c => c
  | .inlined _ => 0

/-- The inline arena viewed as `N` slots. While the union holds the heap
fields the arena's bytes are garbage, i.e. `N` unconstructed slots. -/
def Storage.inlineView (N : Nat) (st : Storage α) : List (Option α) :=
  match st.data with
  | .inlined slots => slots
  | .allocated _ _ => List.replicate N none

/-- Write slot `i` of the inline arena. If the union currently holds the
heap pointer/capacity, those fields are trampled: the union switches to the
inline arena (starting from garbage), as in the C++ union overlay. -/
def Storage.writeInline (N : Nat) (st : Storage α) (i : Nat) (v : Option α) :
    Storage α :=
  { st with data := .inlined ((st.inlineView N).set i v) }

/-- A pointer as the helpers receive it: into an allocator buffer at some
offset, or into the inline arena of the (one) Storage at some offset. -/
inductive Ptr where
  | heap (base off : Nat)
  | inl (off : Nat)
  deriving DecidableEq

/-- Pointer arithmetic `p + k`. -/
def Ptr.add : Ptr → Nat → Ptr
  | .heap b o, k => .heap b (o + k)
  | .inl o, k => .inl (o + k)

/-- The whole mutable state: the allocator plus the Storage. -/
structure World (α : Type) (N : Nat) where
  alloc : AllocState α
  store : Storage α

/-- Read the slot a pointer designates (reads out of range, or from a
retired buffer, see raw memory: `none`). -/
def World.read (w : World α N) : Ptr → Option α
  | .heap b o => (w.alloc.readBuf b).getD o none
  | .inl o => (w.store.inlineView N).getD o none

/-- Write the slot a pointer designates. -/
def World.write (w : World α N) : Ptr → Option α → World α N
  | .heap b o, v => { w with alloc := w.alloc.writeBufSlot b o v }
  | .inl o, v => { w with store := w.store.writeInline N o v }

/-- The pointer designates a slot that actually exists. -/
def World.canWrite (w : World α N) : Ptr → Prop
  | .heap b o => o < (w.alloc.readBuf b).length
  | .inl o => o < (w.store.inlineView N).length

/-- DestroyElements: destroy `n` elements starting at `first`, in order. -/
def DestroyElements (w : World α N) (first : Ptr) (n : Nat) : World α N :=
  match n with
  | 0 => w
  | m + 1 => DestroyElements (w.write first none) (first.add 1) m

/-- The world after `n` successful ConstructNext/AssignNext invocations
starting at `first` with the cursor at `cur` (the common success path of
ConstructElements and AssignElements). -/
def constructRun (w : World α N) (first : Ptr) (ad : Adapter α) (cur n : Nat) :
    World α N :=
  match n with
  | 0 => w
  | m + 1 =>
      constructRun (w.write first (some (ad.vals cur))) (first.add 1) ad
        (cur + 1) m

/-- The world ConstructElements leaves behind when invocation `cur + i`
throws: the `i` elements constructed by the call are destroyed again (the
loop's catch block) before the exception propagates. -/
def constructFail (w : World α N) (first : Ptr) (ad : Adapter α) (cur i : Nat) :
    World α N :=
  match i with
  | 0 => w
  | m + 1 =>
      (constructFail (w.write first (some (ad.vals cur))) (first.add 1) ad
        (cur + 1) m).write first none

/-- ConstructElements: construct `n` elements at `first` from the adapter.
If some construction throws, the elements already constructed by this call
are destroyed (the source's catch destroys the prefix in one sweep; the
model unwinds them one frame at a time, reaching the same state) and the
exception propagates. On success the advanced cursor is returned. -/
def ConstructElements (w : World α N) (first : Ptr) (ad : Adapter α)
    (cur n : Nat) : Except (World α N) (World α N × Nat) :=
  match n with
  | 0 => .ok (w, cur)
  | m + 1 =>
      if ad.throws cur then .error w
      else
        match ConstructElements (w.write first (some (ad.vals cur)))
            (first.add 1) ad (cur + 1) m with
        | .ok r => .ok r
        | .error e => .error (e.write first none)

/-- AssignElements: assign over `n` live elements at `first` from the
adapter. No rollback: a throw leaves the already-performed assignments. -/
def AssignElements (w : World α N) (first : Ptr) (ad : Adapter α)
    (cur n : Nat) : Except (World α N) (World α N × Nat) :=
  match n with
  | 0 => .ok (w, cur)
  | m + 1 =>
      if ad.throws cur then .error w
      else
        AssignElements (w.write first (some (ad.vals cur))) (first.add 1) ad
          (cur + 1) m

/-- Storage::MakeStorageView. -/
structure StorageView where
  data : Ptr
  size : Nat
  capacity : Nat

/-- MakeStorageView: the active data pointer, the size, and the capacity
(`N` when inline, the allocated capacity when heap). -/
def World.makeStorageView (w : World α N) : StorageView :=
  if w.store.isAllocated then
    ⟨.heap w.store.getAllocatedData 0, w.store.size,
      w.store.getAllocatedCapacity⟩
  else
    ⟨.inl 0, w.store.size, N⟩

/-- Storage::Initialize. Precondition (asserted in the source): not
allocated and size 0. If `newSize > N` a buffer of exactly `newSize` is
allocated and adopted (SetAllocatedData + SetIsAllocated) before
construction; a construction throw then leaves that buffer owned by the
Storage, to be freed by its destructor. Finally AddSize(newSize). -/
def Initialize (w : World α N) (ad : Adapter α) (newSize : Nat) :
    Except (World α N) (World α N) :=
  if newSize > N then
    let p := w.alloc.nextPtr
    let w1 : World α N :=
      { alloc := (w.alloc.allocate newSize).2,
        store := { w.store with data := .allocated p newSize,
                                isAllocated := true } }
    match ConstructElements w1 (.heap p 0) ad 0 newSize with
    | .error e => .error e
    | .ok (w2, _) =>
        .ok { w2 with store := { w2.store with
                                  size := w2.store.size + newSize } }
  else
    match ConstructElements w (.inl 0) ad 0 newSize with
    | .error e => .error e
    | .ok (w2, _) =>
        .ok { w2 with store := { w2.store with
                                  size := w2.store.size + newSize } }

/-- Storage::Assign. The three span layouts of the source, followed by
AssignElements, ConstructElements, DestroyElements on them; on the
grow-beyond-capacity path the fresh buffer is held by an
AllocationTransaction whose destructor (run while an exception unwinds)
returns it to the allocator; on success that path commits by
DeallocateIfAllocated + AcquireAllocation + SetIsAllocated. SetSize last. -/
def Assign (w : World α N) (ad : Adapter α) (newSize : Nat) :
    Except (World α N) (World α N) :=
  let sv := w.makeStorageView
  if newSize > sv.capacity then
    let p := w.alloc.nextPtr
    let w1 : World α N := { w with alloc := (w.alloc.allocate newSize).2 }
    match ConstructElements w1 (.heap p 0) ad 0 newSize with
    | .error e => .error { e with alloc := e.alloc.deallocate p newSize }
    | .ok (w2, _) =>
        let w3 := DestroyElements w2 sv.data sv.size
        let a2 := if w3.store.isAllocated then
                    w3.alloc.deallocate w3.store.getAllocatedData
                      w3.store.getAllocatedCapacity
                  else w3.alloc
        .ok { alloc := a2,
              store := { w3.store with data := .allocated p newSize,
                                       isAllocated := true,
                                       size := newSize } }
  else if newSize > sv.size then
    match AssignElements w sv.data ad 0 sv.size with
    | .error e => .error e
    | .ok (w1, cur) =>
        match ConstructElements w1 (sv.data.add sv.size) ad cur
            (newSize - sv.size) with
        | .error e => .error e
        | .ok (w2, _) =>
            .ok { w2 with store := { w2.store with size := newSize } }
  else
    match AssignElements w sv.data ad 0 newSize with
    | .error e => .error e
    | .ok (w1, _) =>
        let w2 := DestroyElements w1 (sv.data.add newSize)
          (sv.size - newSize)
        .ok { w2 with store := { w2.store with size := newSize } }

/-- Storage::ShrinkToFit. Precondition (asserted): allocated. The move
adapter reads the existing heap elements in order; `throws` is the throw
schedule of those move constructions. A throw during relocation is caught,
SetAllocatedData restores the saved pointer/capacity (the inline writes may
have trampled them), and the exception propagates (the transaction then
frees the smaller heap buffer if one was taken). -/
def ShrinkToFit [Inhabited α] (w : World α N) (throws : Nat → Bool) :
    Except (World α N) (World α N) :=
  let svData := w.store.getAllocatedData
  let svSize := w.store.size
  let svCap := w.store.getAllocatedCapacity
  let ad : Adapter α :=
    ⟨fun i => ((w.alloc.readBuf svData).getD i none).getD default, throws⟩
  if svSize ≤ N then
    match ConstructElements w (.inl 0) ad 0 svSize with
    | .error e =>
        .error { e with store := { e.store with
                                    data := .allocated svData svCap } }
    | .ok (w2, _) =>
        let w3 := DestroyElements w2 (.heap svData 0) svSize
        .ok { alloc := w3.alloc.deallocate svData svCap,
              store := { w3.store with isAllocated := false } }
  else if svSize < svCap then
    let p := w.alloc.nextPtr
    let w1 : World α N := { w with alloc := (w.alloc.allocate svSize).2 }
    match ConstructElements w1 (.heap p 0) ad 0 svSize with
    | .error e =>
        .error { alloc := e.alloc.deallocate p svSize,
                 store := { e.store with
                             data := .allocated svData svCap } }
    | .ok (w2, _) =>
        let w3 := DestroyElements w2 (.heap svData 0) svSize
        .ok { alloc := w3.alloc.deallocate svData svCap,
              store := { w3.store with data := .allocated p svSize } }
  else
    .ok w

/-- Storage::DestroyAndDeallocate (the destructor's body): destroy the live
elements of the active region, then free the heap buffer if one is held. -/
def DestroyAndDeallocate (w : World α N) : World α N :=
  let d : Ptr := if w.store.isAllocated then .heap w.store.getAllocatedData 0
                 else .inl 0
  let w1 := DestroyElements w d w.store.size
  if w1.store.isAllocated then
    { w1 with alloc := w1.alloc.deallocate w1.store.getAllocatedData
                w1.store.getAllocatedCapacity }
  else w1

/-- A freshly default-constructed Storage next to a pristine allocator:
empty, inline, size 0. -/
def emptyWorld (α : Type) (N : Nat) : World α N :=
  { alloc := ⟨0, [], []⟩,
    store := ⟨0, false, .inlined (List.replicate N none)⟩ }

/-- The worlds reachable from the empty Storage through the three
operations, along both the success and the exception outcome of each; the
Initialize and ShrinkToFit steps carry the source's asserted
preconditions. -/
inductive Reachable (α : Type) [Inhabited α] (N : Nat) : World α N → Prop
  | empty : Reachable α N (emptyWorld α N)
  | initOk {w w' : World α N} {ad : Adapter α} {k : Nat} :
      Reachable α N w → w.store.isAllocated = false → w.store.size = 0 →
      Initialize w ad k = .ok w' → Reachable α N w'
  | initErr {w w' : World α N} {ad : Adapter α} {k : Nat} :
      Reachable α N w → w.store.isAllocated = false → w.store.size = 0 →
      Initialize w ad k = .error w' → Reachable α N w'
  | assignOk {w w' : World α N} {ad : Adapter α} {k : Nat} :
      Reachable α N w → Assign w ad k = .ok w' → Reachable α N w'
  | assignErr {w w' : World α N} {ad : Adapter α} {k : Nat} :
      Reachable α N w → Assign w ad k = .error w' → Reachable α N w'
  | shrinkOk {w w' : World α N} {th : Nat → Bool} :
      Reachable α N w → w.store.isAllocated = true →
      ShrinkToFit w th = .ok w' → Reachable α N w'
  | shrinkErr {w w' : World α N} {th : Nat → Bool} :
      Reachable α N w → w.store.isAllocated = true →
      ShrinkToFit w th = .error w' → Reachable α N w'

/-- Extract the error payload of an Except. -/
def errWorld : Except ε ω → Option ε
  | .error e => some e
  | .ok _ => none

/-! ### Slot-list lemmas -/

theorem getD_set_self {α : Type} (l : List (Option α)) (i : Nat)
    (v d : Option α) (h : i < l.length) : (l.set i v).getD i d = v := by
  induction l generalizing i with
  | nil => simp at h
  | cons x xs ih =>
      cases i with
      | zero => rfl
      | succ j => simpa using ih j (by simpa using h)

theorem getD_set_other {α : Type} (l : List (Option α)) (i j : Nat)
    (v d : Option α) (h : i ≠ j) : (l.set i v).getD j d = l.getD j d := by
  induction l generalizing i j with
  | nil => rfl
  | cons x xs ih =>
      cases i with
      | zero =>
          cases j with
          | zero => exact absurd rfl h
          | succ j => rfl
      | succ i =>
          cases j with
          | zero => rfl
          | succ j => simpa using ih i j (by omega)

theorem getD_set_none {α : Type} (l : List (Option α)) (i : Nat) :
    (l.set i (none : Option α)).getD i none = none := by
  induction l generalizing i with
  | nil => rfl
  | cons x xs ih =>
      cases i with
      | zero => rfl
      | succ j => simpa using ih j

theorem getD_oob {α : Type} (l : List (Option α)) (i : Nat)
    (d : Option α) (h : l.length ≤ i) : l.getD i d = d := by
  induction l generalizing i with
  | nil => rfl
  | cons x xs ih =>
      cases i with
      | zero => simp at h
      | succ j => simpa using ih j (by simpa using h)

/-! ### Allocator lemmas -/

/-- The slots of the first buffer named `p` in a buffer list. -/
def findSlots (bs : List (Buf α)) (p : Nat) : List (Option α) :=
  match bs.find? (fun b => b.ptr == p) with
  | some b => b.slots
  | none => []

theorem findSlots_nil (p : Nat) : findSlots ([] : List (Buf α)) p = [] := rfl

theorem findSlots_cons_pos (b : Buf α) (bs : List (Buf α)) (p : Nat)
    (h : b.ptr = p) : findSlots (b :: bs) p = b.slots := by
  unfold findSlots
  rw [List.find?_cons_of_pos _ (by simpa using h)]

theorem findSlots_cons_neg (b : Buf α) (bs : List (Buf α)) (p : Nat)
    (h : ¬ b.ptr = p) : findSlots (b :: bs) p = findSlots bs p := by
  unfold findSlots
  rw [List.find?_cons_of_neg _ (by simpa using h)]

theorem readBuf_eq_findSlots (a : AllocState α) (p : Nat) :
    a.readBuf p = findSlots a.bufs p := rfl

/-- The per-buffer update performed by `writeBufSlot`. -/
def setSlotFn (p i : Nat) (v : Option α) : Buf α → Buf α :=
  fun b => if b.ptr == p then { b with slots := b.slots.set i v } else b

theorem bufs_writeBufSlot (a : AllocState α) (p i : Nat) (v : Option α) :
    (a.writeBufSlot p i v).bufs = a.bufs.map (setSlotFn p i v) := rfl

@[simp] theorem ptr_setSlotFn (p i : Nat) (v : Option α) (b : Buf α) :
    (setSlotFn p i v b).ptr = b.ptr := by
  unfold setSlotFn
  by_cases h : b.ptr = p <;> simp [h]

@[simp] theorem cap_setSlotFn (p i : Nat) (v : Option α) (b : Buf α) :
    (setSlotFn p i v b).cap = b.cap := by
  unfold setSlotFn
  by_cases h : b.ptr = p <;> simp [h]

theorem findSlots_map_setSlotFn_self (bs : List (Buf α)) (p i : Nat)
    (v : Option α) :
    findSlots (bs.map (setSlotFn p i v)) p = (findSlots bs p).set i v := by
  induction bs with
  | nil => simp [findSlots_nil]
  | cons b bs ih =>
      by_cases h : b.ptr = p
      · rw [List.map_cons, findSlots_cons_pos _ _ _ (by simpa using h),
          findSlots_cons_pos _ _ _ h]
        simp [setSlotFn, h]
      · rw [List.map_cons, findSlots_cons_neg _ _ _ (by simpa using h),
          findSlots_cons_neg _ _ _ h]
        exact ih

theorem findSlots_map_setSlotFn_other (bs : List (Buf α)) (p q i : Nat)
    (v : Option α) (h : q ≠ p) :
    findSlots (bs.map (setSlotFn p i v)) q = findSlots bs q := by
  induction bs with
  | nil => rfl
  | cons b bs ih =>
      by_cases hq : b.ptr = q
      · rw [List.map_cons, findSlots_cons_pos _ _ _ (by simpa using hq),
          findSlots_cons_pos _ _ _ hq]
        unfold setSlotFn
        rw [if_neg (by simp; omega)]
      · rw [List.map_cons, findSlots_cons_neg _ _ _ (by simpa using hq),
          findSlots_cons_neg _ _ _ hq]
        exact ih

theorem readBuf_writeBufSlot_self (a : AllocState α) (p i : Nat)
    (v : Option α) :
    (a.writeBufSlot p i v).readBuf p = (a.readBuf p).set i v := by
  rw [readBuf_eq_findSlots, readBuf_eq_findSlots, bufs_writeBufSlot]
  exact findSlots_map_setSlotFn_self _ _ _ _

theorem readBuf_writeBufSlot_other (a : AllocState α) (p q i : Nat)
    (v : Option α) (h : q ≠ p) :
    (a.writeBufSlot p i v).readBuf q = a.readBuf q := by
  rw [readBuf_eq_findSlots, readBuf_eq_findSlots, bufs_writeBufSlot]
  exact findSlots_map_setSlotFn_other _ _ _ _ _ h

@[simp] theorem nextPtr_writeBufSlot (a : AllocState α) (p i : Nat)
    (v : Option α) : (a.writeBufSlot p i v).nextPtr = a.nextPtr := rfl

@[simp] theorem deallocLog_writeBufSlot (a : AllocState α) (p i : Nat)
    (v : Option α) : (a.writeBufSlot p i v).deallocLog = a.deallocLog := rfl

@[simp] theorem shape_writeBufSlot (a : AllocState α) (p i : Nat)
    (v : Option α) : (a.writeBufSlot p i v).shape = a.shape := by
  unfold AllocState.shape
  rw [bufs_writeBufSlot, List.map_map]
  apply List.map_congr_left
  intro b _
  simp

theorem filter_map_eq_of {β : Type} (l : List β) (f : β → β) (q : β → Bool)
    (hker : ∀ b, q b = true → f b = b) (hpres : ∀ b, q (f b) = q b) :
    (l.map f).filter q = l.filter q := by
  induction l with
  | nil => rfl
  | cons b bs ih =>
      rw [List.map_cons, List.filter_cons, List.filter_cons, hpres]
      cases hq : q b with
      | false =>
          rw [if_neg (by simp), if_neg (by simp)]
          exact ih
      | true =>
          rw [if_pos rfl, if_pos rfl, hker b hq, ih]

theorem filter_writeBufSlot (a : AllocState α) (p i : Nat) (v : Option α) :
    (a.writeBufSlot p i v).bufs.filter (fun b => b.ptr != p) =
      a.bufs.filter (fun b => b.ptr != p) := by
  rw [bufs_writeBufSlot]
  apply filter_map_eq_of
  · intro b hb
    unfold setSlotFn
    rw [if_neg]
    simp only [bne_iff_ne, ne_eq] at hb
    simpa using hb
  · intro b
    simp

theorem filter_ne_of_fresh (a : AllocState α) (p : Nat) (hf : a.fresh)
    (hp : a.nextPtr ≤ p) : a.bufs.filter (fun b => b.ptr != p) = a.bufs := by
  apply List.filter_eq_self.2
  intro b hb
  have := hf b hb
  simp only [bne_iff_ne, ne_eq]
  omega

theorem bufs_deallocate (a : AllocState α) (q c : Nat) :
    (a.deallocate q c).bufs = a.bufs.filter (fun b => b.ptr != q) := rfl

theorem readBuf_deallocate_other (a : AllocState α) (p q c : Nat)
    (h : p ≠ q) : (a.deallocate q c).readBuf p = a.readBuf p := by
  rw [readBuf_eq_findSlots, readBuf_eq_findSlots, bufs_deallocate]
  induction a.bufs with
  | nil => rfl
  | cons b bs ih =>
      rw [List.filter_cons]
      by_cases hb : b.ptr = q
      · rw [if_neg (by simp [hb])]
        rw [findSlots_cons_neg _ _ _ (by omega), ih]
      · rw [if_pos (by simpa using hb)]
        by_cases hp : b.ptr = p
        · rw [findSlots_cons_pos _ _ _ hp, findSlots_cons_pos _ _ _ hp]
        · rw [findSlots_cons_neg _ _ _ hp, findSlots_cons_neg _ _ _ hp, ih]

/-! ### World read/write lemmas -/

@[simp] theorem size_write (w : World α N) (p : Ptr) (v : Option α) :
    (w.write p v).store.size = w.store.size := by
  cases p <;> rfl

@[simp] theorem isAllocated_write (w : World α N) (p : Ptr) (v : Option α) :
    (w.write p v).store.isAllocated = w.store.isAllocated := by
  cases p <;> rfl

@[simp] theorem nextPtr_write (w : World α N) (p : Ptr) (v : Option α) :
    (w.write p v).alloc.nextPtr = w.alloc.nextPtr := by
  cases p <;> rfl

@[simp] theorem deallocLog_write (w : World α N) (p : Ptr) (v : Option α) :
    (w.write p v).alloc.deallocLog = w.alloc.deallocLog := by
  cases p <;> rfl

@[simp] theorem shape_write (w : World α N) (p : Ptr) (v : Option α) :
    (w.write p v).alloc.shape = w.alloc.shape := by
  cases p with
  | heap b o => exact shape_writeBufSlot w.alloc b o v
  | inl o => rfl

@[simp] theorem store_write_heap (w : World α N) (b o : Nat) (v : Option α) :
    (w.write (.heap b o) v).store = w.store := rfl

@[simp] theorem alloc_write_inl (w : World α N) (o : Nat) (v : Option α) :
    (w.write (.inl o) v).alloc = w.alloc := rfl

theorem inlineView_write_inl (w : World α N) (o : Nat) (v : Option α) :
    ((w.write (.inl o) v).store.inlineView N) =
      (w.store.inlineView N).set o v := rfl

theorem read_write_self (w : World α N) (p : Ptr) (v : Option α)
    (h : w.canWrite p) : (w.write p v).read p = v := by
  cases p with
  | heap b o =>
      show ((w.alloc.writeBufSlot b o v).readBuf b).getD o none = v
      rw [readBuf_writeBufSlot_self]
      exact getD_set_self _ _ _ _ h
  | inl o =>
      show ((w.store.inlineView N).set o v).getD o none = v
      exact getD_set_self _ _ _ _ h

theorem read_write_none (w : World α N) (p : Ptr) :
    (w.write p none).read p = none := by
  cases p with
  | heap b o =>
      show ((w.alloc.writeBufSlot b o none).readBuf b).getD o none = none
      rw [readBuf_writeBufSlot_self]
      exact getD_set_none _ _
  | inl o =>
      show ((w.store.inlineView N).set o none).getD o none = none
      exact getD_set_none _ _

theorem read_write_other (w : World α N) (p q : Ptr) (v : Option α)
    (h : q ≠ p) : (w.write p v).read q = w.read q := by
  cases p with
  | heap b o =>
      cases q with
      | heap c u =>
          show ((w.alloc.writeBufSlot b o v).readBuf c).getD u none = _
          by_cases hc : c = b
          · subst hc
            have hu : o ≠ u := by
              intro hh; exact h (by rw [hh])
            rw [readBuf_writeBufSlot_self]
            exact getD_set_other _ _ _ _ _ hu
          · rw [readBuf_writeBufSlot_other _ _ _ _ _ hc]
            rfl
      | inl u => rfl
  | inl o =>
      cases q with
      | heap c u => rfl
      | inl u =>
          have hu : o ≠ u := by
            intro hh; exact h (by rw [hh])
          show ((w.store.inlineView N).set o v).getD u none = _
          exact getD_set_other _ _ _ _ _ hu

theorem canWrite_write (w : World α N) (p q : Ptr) (v : Option α)
    (h : w.canWrite q) : (w.write p v).canWrite q := by
  cases p with
  | heap b o =>
      cases q with
      | heap c u =>
          show u < ((w.alloc.writeBufSlot b o v).readBuf c).length
          by_cases hc : c = b
          · subst hc
            rw [readBuf_writeBufSlot_self]
            simpa using h
          · rw [readBuf_writeBufSlot_other _ _ _ _ _ hc]
            exact h
      | inl u => exact h
  | inl o =>
      cases q with
      | heap c u => exact h
      | inl u =>
          show u < ((w.store.inlineView N).set o v).length
          simpa using h

/-- Reading past the end of the designated region is raw memory. -/
theorem read_oob_heap (w : World α N) (b o : Nat)
    (h : (w.alloc.readBuf b).length ≤ o) : w.read (.heap b o) = none :=
  getD_oob _ _ _ h

theorem read_oob_inl (w : World α N) (o : Nat)
    (h : (w.store.inlineView N).length ≤ o) : w.read (.inl o) = none :=
  getD_oob _ _ _ h

/-! ### Pointer arithmetic -/

@[simp] theorem Ptr.add_zero (p : Ptr) : p.add 0 = p := by
  cases p <;> rfl

theorem Ptr.add_add (p : Ptr) (a b : Nat) : (p.add a).add b = p.add (a + b) := by
  cases p <;> simp [Ptr.add, Nat.add_assoc]

theorem Ptr.add_ne (p : Ptr) (a b : Nat) (h : a ≠ b) :
    p.add a ≠ p.add b := by
  cases p <;> simp [Ptr.add] <;> omega

theorem Ptr.add_ne_self (p : Ptr) (a : Nat) (h : a ≠ 0) : p.add a ≠ p := by
  cases p <;> simp [Ptr.add] <;> omega

/-! ### Write chains

The three element loops only ever write slots. `WritesAt P w w'` says `w'`
arises from `w` by a sequence of writes, each at a pointer satisfying `P`;
all frame lemmas are proved once over such chains. -/

inductive WritesAt (P : Ptr → Prop) : World α N → World α N → Prop
  | refl (w : World α N) : WritesAt P w w
  | step {w w' : World α N} {p : Ptr} {v : Option α} :
      P p → WritesAt P (w.write p v) w' → WritesAt P w w'

theorem WritesAt.trans {P : Ptr → Prop} {w1 w2 w3 : World α N}
    (h1 : WritesAt P w1 w2) (h2 : WritesAt P w2 w3) : WritesAt P w1 w3 := by
  induction h1 with
  | refl => exact h2
  | step hp _ ih => exact .step hp (ih h2)

theorem WritesAt.mono {P Q : Ptr → Prop} {w w' : World α N}
    (h : WritesAt P w w') (hpq : ∀ p, P p → Q p) : WritesAt Q w w' := by
  induction h with
  | refl => exact .refl _
  | step hp _ ih => exact .step (hpq _ hp) ih

theorem WritesAt.size_eq {P : Ptr → Prop} {w w' : World α N}
    (h : WritesAt P w w') : w'.store.size = w.store.size := by
  induction h with
  | refl => rfl
  | step _ _ ih => simpa using ih

theorem WritesAt.isAllocated_eq {P : Ptr → Prop} {w w' : World α N}
    (h : WritesAt P w w') : w'.store.isAllocated = w.store.isAllocated := by
  induction h with
  | refl => rfl
  | step _ _ ih => simpa using ih

theorem WritesAt.nextPtr_eq {P : Ptr → Prop} {w w' : World α N}
    (h : WritesAt P w w') : w'.alloc.nextPtr = w.alloc.nextPtr := by
  induction h with
  | refl => rfl
  | step _ _ ih => simpa using ih

theorem WritesAt.deallocLog_eq {P : Ptr → Prop} {w w' : World α N}
    (h : WritesAt P w w') : w'.alloc.deallocLog = w.alloc.deallocLog := by
  induction h with
  | refl => rfl
  | step _ _ ih => simpa using ih

theorem WritesAt.shape_eq {P : Ptr → Prop} {w w' : World α N}
    (h : WritesAt P w w') : w'.alloc.shape = w.alloc.shape := by
  induction h with
  | refl => rfl
  | step _ _ ih => simpa using ih

/-- A chain of writes entirely inside heap buffers never touches the
Storage object. -/
theorem WritesAt.store_eq {P : Ptr → Prop} {w w' : World α N}
    (h : WritesAt P w w') (hp : ∀ p, P p → ∃ b o, p = Ptr.heap b o) :
    w'.store = w.store := by
  induction h with
  | refl => rfl
  | step hq hc ih =>
      obtain ⟨b, o, rfl⟩ := hp _ hq
      rw [ih]
      rfl

/-- A chain of writes entirely inside the inline arena never touches the
allocator. -/
theorem WritesAt.alloc_eq {P : Ptr → Prop} {w w' : World α N}
    (h : WritesAt P w w') (hp : ∀ p, P p → ∃ o, p = Ptr.inl o) :
    w'.alloc = w.alloc := by
  induction h with
  | refl => rfl
  | step hq hc ih =>
      obtain ⟨o, rfl⟩ := hp _ hq
      rw [ih]
      rfl

/-- A chain of writes all inside the heap buffer named `p` leaves the other
buffers untouched. -/
theorem WritesAt.filter_eq {P : Ptr → Prop} {w w' : World α N} (p : Nat)
    (h : WritesAt P w w') (hp : ∀ q, P q → ∃ o, q = Ptr.heap p o) :
    w'.alloc.bufs.filter (fun b => b.ptr != p) =
      w.alloc.bufs.filter (fun b => b.ptr != p) := by
  induction h with
  | refl => rfl
  | step hq hc ih =>
      obtain ⟨o, rfl⟩ := hp _ hq
      rw [ih]
      exact filter_writeBufSlot _ p o _

theorem WritesAt.read_eq {P : Ptr → Prop} {w w' : World α N} {q : Ptr}
    (h : WritesAt P w w') (hq : ∀ p, P p → q ≠ p) : w'.read q = w.read q := by
  induction h with
  | refl => rfl
  | step hp hc ih =>
      rename_i w p v
      rw [ih, read_write_other _ _ _ _ (hq _ hp)]

theorem WritesAt.canWrite {P : Ptr → Prop} {w w' : World α N} {q : Ptr}
    (h : WritesAt P w w') (hq : w.canWrite q) : w'.canWrite q := by
  induction h with
  | refl => exact hq
  | step hp hc ih => exact ih (canWrite_write _ _ _ _ hq)

theorem write_readBuf_length (w : World α N) (p : Ptr) (v : Option α)
    (b : Nat) : ((w.write p v).alloc.readBuf b).length =
      (w.alloc.readBuf b).length := by
  cases p with
  | heap c o =>
      by_cases hb : b = c
      · subst hb
        show ((w.alloc.writeBufSlot b o v).readBuf b).length = _
        rw [readBuf_writeBufSlot_self]
        simp
      · show ((w.alloc.writeBufSlot c o v).readBuf b).length = _
        rw [readBuf_writeBufSlot_other _ _ _ _ _ hb]
  | inl o => rfl

theorem write_inlineView_length (w : World α N) (p : Ptr) (v : Option α) :
    ((w.write p v).store.inlineView N).length =
      (w.store.inlineView N).length := by
  cases p with
  | heap c o => rfl
  | inl o =>
      rw [inlineView_write_inl]
      simp

theorem WritesAt.readBuf_length {P : Ptr → Prop} {w w' : World α N}
    (h : WritesAt P w w') (b : Nat) :
    (w'.alloc.readBuf b).length = (w.alloc.readBuf b).length := by
  induction h with
  | refl => rfl
  | step hp hc ih =>
      rw [ih, write_readBuf_length]

theorem WritesAt.inlineView_length {P : Ptr → Prop} {w w' : World α N}
    (h : WritesAt P w w') :
    (w'.store.inlineView N).length = (w.store.inlineView N).length := by
  induction h with
  | refl => rfl
  | step hp hc ih =>
      rw [ih, write_inlineView_length]

/-! ### The element loops as write chains -/

theorem constructRun_writesAt (w : World α N) (first : Ptr) (ad : Adapter α)
    (cur n : Nat) {P : Ptr → Prop} (hP : ∀ j < n, P (first.add j)) :
    WritesAt P w (constructRun w first ad cur n) := by
  induction n generalizing w first cur with
  | zero => exact .refl _
  | succ m ih =>
      refine .step ?_ (ih _ _ _ fun j hj => ?_)
      · have := hP 0 (Nat.succ_pos m)
        simpa using this
      · rw [Ptr.add_add]
        exact hP (1 + j) (by omega)

theorem constructFail_writesAt (w : World α N) (first : Ptr) (ad : Adapter α)
    (cur i : Nat) {P : Ptr → Prop} (hP : ∀ j < i, P (first.add j)) :
    WritesAt P w (constructFail w first ad cur i) := by
  induction i generalizing w first cur with
  | zero => exact .refl _
  | succ m ih =>
      have h0 : P first := by
        have := hP 0 (Nat.succ_pos m)
        simpa using this
      refine .trans (.step h0 (ih _ _ _ fun j hj => ?_)) (.step h0 (.refl _))
      rw [Ptr.add_add]
      exact hP (1 + j) (by omega)

theorem DestroyElements_writesAt (w : World α N) (first : Ptr) (n : Nat)
    {P : Ptr → Prop} (hP : ∀ j < n, P (first.add j)) :
    WritesAt P w (DestroyElements w first n) := by
  induction n generalizing w first with
  | zero => exact .refl _
  | succ m ih =>
      refine .step ?_ (ih _ _ fun j hj => ?_)
      · have := hP 0 (Nat.succ_pos m)
        simpa using this
      · rw [Ptr.add_add]
        exact hP (1 + j) (by omega)

/-! ### Reading back what the loops wrote -/

theorem constructRun_read_in (w : World α N) (first : Ptr) (ad : Adapter α)
    (cur n j : Nat) (hj : j < n) (hw : w.canWrite (first.add j)) :
    (constructRun w first ad cur n).read (first.add j) =
      some (ad.vals (cur + j)) := by
  induction n generalizing w first cur j with
  | zero => omega
  | succ m ih =>
      cases j with
      | zero =>
          show (constructRun (w.write first (some (ad.vals cur)))
              (first.add 1) ad (cur + 1) m).read (first.add 0) = _
          have hchain := constructRun_writesAt
            (w.write first (some (ad.vals cur))) (first.add 1) ad (cur + 1) m
            (P := fun p => ∃ k, k < m ∧ p = (first.add 1).add k)
            (fun k hk => ⟨k, hk, rfl⟩)
          rw [hchain.read_eq ?_]
          · rw [Ptr.add_zero]
            apply read_write_self
            simpa using hw
          · rintro p ⟨k, hk, rfl⟩
            rw [Ptr.add_add]
            exact Ptr.add_ne _ _ _ (by omega)
      | succ j =>
          show (constructRun (w.write first (some (ad.vals cur)))
              (first.add 1) ad (cur + 1) m).read (first.add (j + 1)) = _
          have h1 : first.add (j + 1) = (first.add 1).add j := by
            rw [Ptr.add_add]
            congr 1
            omega
          have h2 : cur + (j + 1) = (cur + 1) + j := by omega
          rw [h1, h2]
          exact ih _ _ _ _ (by omega)
            (by rw [← h1]; exact canWrite_write _ _ _ _ hw)

theorem constructFail_read_in (w : World α N) (first : Ptr) (ad : Adapter α)
    (cur i j : Nat) (hj : j < i) :
    (constructFail w first ad cur i).read (first.add j) = none := by
  induction i generalizing w first cur j with
  | zero => omega
  | succ m ih =>
      show ((constructFail (w.write first (some (ad.vals cur)))
          (first.add 1) ad (cur + 1) m).write first none).read
          (first.add j) = _
      cases j with
      | zero =>
          rw [Ptr.add_zero]
          exact read_write_none _ _
      | succ j =>
          rw [read_write_other _ _ _ _
            (Ptr.add_ne_self first (j + 1) (by omega))]
          have h1 : first.add (j + 1) = (first.add 1).add j := by
            rw [Ptr.add_add]
            congr 1
            omega
          rw [h1]
          exact ih _ _ _ _ (by omega)

theorem DestroyElements_read_in (w : World α N) (first : Ptr) (n j : Nat)
    (hj : j < n) :
    (DestroyElements w first n).read (first.add j) = none := by
  induction n generalizing w first j with
  | zero => omega
  | succ m ih =>
      show (DestroyElements (w.write first none) (first.add 1) m).read
          (first.add j) = _
      cases j with
      | zero =>
          have hchain := DestroyElements_writesAt (w.write first none)
            (first.add 1) m
            (P := fun p => ∃ k, k < m ∧ p = (first.add 1).add k)
            (fun k hk => ⟨k, hk, rfl⟩)
          rw [hchain.read_eq ?_]
          · rw [Ptr.add_zero]
            exact read_write_none _ _
          · rintro p ⟨k, hk, rfl⟩
            rw [Ptr.add_add]
            exact Ptr.add_ne _ _ _ (by omega)
      | succ j =>
          have h1 : first.add (j + 1) = (first.add 1).add j := by
            rw [Ptr.add_add]
            congr 1
            omega
          rw [h1]
          exact ih _ _ _ (by omega)

/-! ### The helpers in terms of the loop worlds -/

theorem ConstructElements_ok (w : World α N) (first : Ptr) (ad : Adapter α)
    (cur n : Nat) (h : ∀ j < n, ad.throws (cur + j) = false) :
    ConstructElements w first ad cur n =
      .ok (constructRun w first ad cur n, cur + n) := by
  induction n generalizing w first cur with
  | zero => rfl
  | succ m ih =>
      show (if ad.throws cur then _ else _) = _
      rw [if_neg (by
        have := h 0 (Nat.succ_pos m)
        simpa using this)]
      rw [ih _ _ _ (fun j hj => by
        have := h (1 + j) (by omega)
        rw [← this]
        congr 1
        omega)]
      show Except.ok (constructRun _ (first.add 1) ad (cur + 1) m,
        (cur + 1) + m) = _
      have : (cur + 1) + m = cur + (m + 1) := by omega
      rw [this]
      rfl

theorem ConstructElements_err (w : World α N) (first : Ptr) (ad : Adapter α)
    (cur n i : Nat) (hi : i < n) (ht : ad.throws (cur + i) = true)
    (hmin : ∀ j < i, ad.throws (cur + j) = false) :
    ConstructElements w first ad cur n =
      .error (constructFail w first ad cur i) := by
  induction i generalizing w first cur n with
  | zero =>
      cases n with
      | zero => omega
      | succ m =>
          show (if ad.throws cur then _ else _) = _
          rw [if_pos (by simpa using ht)]
          rfl
  | succ k ih =>
      cases n with
      | zero => omega
      | succ m =>
          show (if ad.throws cur then _ else _) = _
          rw [if_neg (by
            have := hmin 0 (Nat.succ_pos k)
            simpa using this)]
          rw [ih _ _ _ m (by omega) (by
            have : (cur + 1) + k = cur + (k + 1) := by omega
            rw [this]
            exact ht)
            (fun j hj => by
              have := hmin (1 + j) (by omega)
              rw [← this]
              congr 1
              omega)]
          rfl

theorem AssignElements_ok (w : World α N) (first : Ptr) (ad : Adapter α)
    (cur n : Nat) (h : ∀ j < n, ad.throws (cur + j) = false) :
    AssignElements w first ad cur n =
      .ok (constructRun w first ad cur n, cur + n) := by
  induction n generalizing w first cur with
  | zero => rfl
  | succ m ih =>
      show (if ad.throws cur then _ else _) = _
      rw [if_neg (by
        have := h 0 (Nat.succ_pos m)
        simpa using this)]
      rw [ih _ _ _ (fun j hj => by
        have := h (1 + j) (by omega)
        rw [← this]
        congr 1
        omega)]
      show Except.ok (constructRun _ (first.add 1) ad (cur + 1) m,
        (cur + 1) + m) = _
      have : (cur + 1) + m = cur + (m + 1) := by omega
      rw [this]
      rfl

theorem AssignElements_err (w : World α N) (first : Ptr) (ad : Adapter α)
    (cur n i : Nat) (hi : i < n) (ht : ad.throws (cur + i) = true)
    (hmin : ∀ j < i, ad.throws (cur + j) = false) :
    AssignElements w first ad cur n =
      .error (constructRun w first ad cur i) := by
  induction i generalizing w first cur n with
  | zero =>
      cases n with
      | zero => omega
      | succ m =>
          show (if ad.throws cur then _ else _) = _
          rw [if_pos (by simpa using ht)]
          rfl
  | succ k ih =>
      cases n with
      | zero => omega
      | succ m =>
          show (if ad.throws cur then _ else _) = _
          rw [if_neg (by
            have := hmin 0 (Nat.succ_pos k)
            simpa using this)]
          rw [ih _ _ _ m (by omega) (by
            have : (cur + 1) + k = cur + (k + 1) := by omega
            rw [this]
            exact ht)
            (fun j hj => by
              have := hmin (1 + j) (by omega)
              rw [← this]
              congr 1
              omega)]
          rfl

/-! ### Branch equations for the three operations -/

theorem Initialize_gt (w : World α N) (ad : Adapter α) (k : Nat)
    (hk : N < k) :
    Initialize w ad k =
      (match ConstructElements
          { alloc := (w.alloc.allocate k).2,
            store := { w.store with data := .allocated w.alloc.nextPtr k,
                                    isAllocated := true } }
          (.heap w.alloc.nextPtr 0) ad 0 k with
      | .error e => .error e
      | .ok (w2, _) =>
          .ok { w2 with store := { w2.store with
                                    size := w2.store.size + k } } :
        Except (World α N) (World α N)) := by
  unfold Initialize
  rw [if_pos hk]

theorem Initialize_le (w : World α N) (ad : Adapter α) (k : Nat)
    (hk : ¬ N < k) :
    Initialize w ad k =
      (match ConstructElements w (.inl 0) ad 0 k with
      | .error e => .error e
      | .ok (w2, _) =>
          .ok { w2 with store := { w2.store with
                                    size := w2.store.size + k } } :
        Except (World α N) (World α N)) := by
  unfold Initialize
  rw [if_neg hk]

theorem Assign_grow (w : World α N) (ad : Adapter α) (k : Nat)
    (hk : k > w.makeStorageView.capacity) :
    Assign w ad k =
      (match ConstructElements
          ({ w with alloc := (w.alloc.allocate k).2 } : World α N)
          (.heap w.alloc.nextPtr 0) ad 0 k with
      | .error e =>
          .error { e with alloc := e.alloc.deallocate w.alloc.nextPtr k }
      | .ok (w2, _) =>
          let w3 := DestroyElements w2 w.makeStorageView.data
            w.makeStorageView.size
          let a2 := if w3.store.isAllocated then
                      w3.alloc.deallocate w3.store.getAllocatedData
                        w3.store.getAllocatedCapacity
                    else w3.alloc
          .ok { alloc := a2,
                store := { w3.store with data := .allocated w.alloc.nextPtr k,
                                         isAllocated := true, size := k } } :
        Except (World α N) (World α N)) := by
  unfold Assign
  rw [if_pos hk]

theorem Assign_mid (w : World α N) (ad : Adapter α) (k : Nat)
    (hk1 : ¬ k > w.makeStorageView.capacity)
    (hk2 : k > w.makeStorageView.size) :
    Assign w ad k =
      (match AssignElements w w.makeStorageView.data ad 0
          w.makeStorageView.size with
      | .error e => .error e
      | .ok (w1, cur) =>
          match ConstructElements w1
              (w.makeStorageView.data.add w.makeStorageView.size) ad cur
              (k - w.makeStorageView.size) with
          | .error e => .error e
          | .ok (w2, _) =>
              .ok { w2 with store := { w2.store with size := k } } :
        Except (World α N) (World α N)) := by
  unfold Assign
  rw [if_neg hk1, if_pos hk2]

theorem Assign_shrink (w : World α N) (ad : Adapter α) (k : Nat)
    (hk1 : ¬ k > w.makeStorageView.capacity)
    (hk2 : ¬ k > w.makeStorageView.size) :
    Assign w ad k =
      (match AssignElements w w.makeStorageView.data ad 0 k with
      | .error e => .error e
      | .ok (w1, _) =>
          let w2 := DestroyElements w1 (w.makeStorageView.data.add k)
            (w.makeStorageView.size - k)
          .ok { w2 with store := { w2.store with size := k } } :
        Except (World α N) (World α N)) := by
  unfold Assign
  rw [if_neg hk1, if_neg hk2]

/-- The move adapter ShrinkToFit builds over the existing heap elements. -/
def moveAdapter [Inhabited α] (w : World α N) (throws : Nat → Bool) :
    Adapter α :=
  ⟨fun i => ((w.alloc.readBuf w.store.getAllocatedData).getD i none).getD
      default,
    throws⟩

theorem ShrinkToFit_inline [Inhabited α] (w : World α N)
    (throws : Nat → Bool) (hsz : w.store.size ≤ N) :
    ShrinkToFit w throws =
      (match ConstructElements w (.inl 0) (moveAdapter w throws) 0
          w.store.size with
      | .error e =>
          .error { e with store := { e.store with
              data := .allocated w.store.getAllocatedData
                w.store.getAllocatedCapacity } }
      | .ok (w2, _) =>
          let w3 := DestroyElements w2
            (.heap w.store.getAllocatedData 0) w.store.size
          .ok { alloc := w3.alloc.deallocate w.store.getAllocatedData
                  w.store.getAllocatedCapacity,
                store := { w3.store with isAllocated := false } } :
        Except (World α N) (World α N)) := by
  unfold ShrinkToFit moveAdapter
  rw [if_pos hsz]

theorem ShrinkToFit_smaller [Inhabited α] (w : World α N)
    (throws : Nat → Bool) (hsz : ¬ w.store.size ≤ N)
    (hlt : w.store.size < w.store.getAllocatedCapacity) :
    ShrinkToFit w throws =
      (match ConstructElements
          ({ w with alloc := (w.alloc.allocate w.store.size).2 } : World α N)
          (.heap w.alloc.nextPtr 0) (moveAdapter w throws) 0
          w.store.size with
      | .error e =>
          .error { alloc := e.alloc.deallocate w.alloc.nextPtr w.store.size,
                   store := { e.store with
                     data := .allocated w.store.getAllocatedData
                       w.store.getAllocatedCapacity } }
      | .ok (w2, _) =>
          let w3 := DestroyElements w2
            (.heap w.store.getAllocatedData 0) w.store.size
          .ok { alloc := w3.alloc.deallocate w.store.getAllocatedData
                  w.store.getAllocatedCapacity,
                store := { w3.store with
                  data := .allocated w.alloc.nextPtr w.store.size } } :
        Except (World α N) (World α N)) := by
  unfold ShrinkToFit moveAdapter
  rw [if_neg hsz, if_pos hlt]

theorem ShrinkToFit_full [Inhabited α] (w : World α N)
    (throws : Nat → Bool) (hsz : ¬ w.store.size ≤ N)
    (hlt : ¬ w.store.size < w.store.getAllocatedCapacity) :
    ShrinkToFit w throws = .ok w := by
  unfold ShrinkToFit
  rw [if_neg hsz, if_neg hlt]

/-! ### Assorted small helpers for the operation proofs -/

@[simp] theorem nextPtr_allocate (a : AllocState α) (n : Nat) :
    ((a.allocate n).2).nextPtr = a.nextPtr + 1 := rfl

@[simp] theorem deallocLog_allocate (a : AllocState α) (n : Nat) :
    ((a.allocate n).2).deallocLog = a.deallocLog := rfl

@[simp] theorem nextPtr_deallocate (a : AllocState α) (p c : Nat) :
    (a.deallocate p c).nextPtr = a.nextPtr := rfl

@[simp] theorem deallocLog_deallocate (a : AllocState α) (p c : Nat) :
    (a.deallocate p c).deallocLog = a.deallocLog ++ [(p, c)] := rfl

theorem readBuf_allocate_self (a : AllocState α) (n : Nat) :
    ((a.allocate n).2).readBuf a.nextPtr = List.replicate n none := by
  rw [readBuf_eq_findSlots]
  exact findSlots_cons_pos _ _ _ rfl

theorem readBuf_allocate_other (a : AllocState α) (n q : Nat)
    (h : q ≠ a.nextPtr) : ((a.allocate n).2).readBuf q = a.readBuf q := by
  rw [readBuf_eq_findSlots, readBuf_eq_findSlots]
  exact findSlots_cons_neg _ _ _ (by simpa using h.symm)

theorem getD_replicate_none {α : Type} (n j : Nat) :
    (List.replicate n (none : Option α)).getD j none = none := by
  induction n generalizing j with
  | zero => rfl
  | succ m ih =>
      cases j with
      | zero => rfl
      | succ j => exact ih j

/-! ### Claim C8 -/

/-- C8: for every destination, adapter and count n, if ConstructElements'
construction of element i throws (i < n the first throwing invocation),
then exactly the already-constructed elements at relative indices [0, i)
are destroyed before the exception propagates: those slots read back as
raw memory, every other location is untouched, and the Storage metadata
and the allocator (counter, outstanding shapes, dealloc log) are exactly
as before the call — so the call constructs either all n elements or
none. -/
theorem ConstructElements_rollback (w : World α N) (first : Ptr)
    (ad : Adapter α) (cur n i : Nat) (hi : i < n)
    (ht : ad.throws (cur + i) = true)
    (hmin : ∀ j < i, ad.throws (cur + j) = false) :
    ∃ e, ConstructElements w first ad cur n = .error e ∧
      (∀ j < i, e.read (first.add j) = none) ∧
      (∀ q : Ptr, (∀ j < i, q ≠ first.add j) → e.read q = w.read q) ∧
      e.store.size = w.store.size ∧
      e.store.isAllocated = w.store.isAllocated ∧
      e.alloc.nextPtr = w.alloc.nextPtr ∧
      e.alloc.deallocLog = w.alloc.deallocLog ∧
      e.alloc.shape = w.alloc.shape := by
  have hchain : WritesAt (fun p => ∃ j, j < i ∧ p = first.add j) w
      (constructFail w first ad cur i) :=
    constructFail_writesAt _ _ _ _ _ (fun j hj => ⟨j, hj, rfl⟩)
  refine ⟨constructFail w first ad cur i,
    ConstructElements_err w first ad cur n i hi ht hmin,
    fun j hj => constructFail_read_in w first ad cur i j hj,
    fun q hq => hchain.read_eq ?_,
    hchain.size_eq, hchain.isAllocated_eq, hchain.nextPtr_eq,
    hchain.deallocLog_eq, hchain.shape_eq⟩
  rintro p ⟨j, hj, rfl⟩
  exact hq j hj

/-- Witness for C8 at a concrete input. -/
theorem ConstructElements_rollback_witness :
    ∃ e, ConstructElements (emptyWorld Nat 2) (.inl 0)
        ⟨fun _ => 7, fun _ => true⟩ 0 1 = .error e ∧
      (∀ j < 0, e.read ((Ptr.inl 0).add j) = none) ∧
      (∀ q : Ptr, (∀ j < 0, q ≠ (Ptr.inl 0).add j) →
        e.read q = (emptyWorld Nat 2).read q) ∧
      e.store.size = (emptyWorld Nat 2).store.size ∧
      e.store.isAllocated = (emptyWorld Nat 2).store.isAllocated ∧
      e.alloc.nextPtr = (emptyWorld Nat 2).alloc.nextPtr ∧
      e.alloc.deallocLog = (emptyWorld Nat 2).alloc.deallocLog ∧
      e.alloc.shape = (emptyWorld Nat 2).alloc.shape :=
  ConstructElements_rollback (emptyWorld Nat 2) (.inl 0)
    ⟨fun _ => 7, fun _ => true⟩ 0 1 0 (by decide) (by decide)
    (fun j hj => by omega)

/-! ### Claim C4 -/

/-- C4: Initialize(adapter, k) on an empty Inline Storage yields, when
k ≤ N, mode Inline with the k adapter values in sequence, and, when
k > N, mode Heap with capacity exactly k (hence at least k) and the k
adapter values in sequence in the freshly allocated buffer. -/
theorem Initialize_correct (w : World α N) (ad : Adapter α) (k : Nat)
    (ha : w.store.isAllocated = false) (hs : w.store.size = 0)
    (hth : ∀ j < k, ad.throws j = false)
    (hv : (w.store.inlineView N).length = N) :
    ∃ w', Initialize w ad k = .ok w' ∧ w'.store.size = k ∧
      (k ≤ N → w'.store.isAllocated = false ∧
        ∀ j < k, w'.read (.inl j) = some (ad.vals j)) ∧
      (N < k → w'.store.isAllocated = true ∧
        w'.store.getAllocatedData = w.alloc.nextPtr ∧
        w'.store.getAllocatedCapacity = k ∧
        ∀ j < k, w'.read (.heap w.alloc.nextPtr j) = some (ad.vals j)) := by
  have hth0 : ∀ j < k, ad.throws (0 + j) = false := fun j hj => by
    simpa using hth j hj
  by_cases hk : N < k
  · rw [Initialize_gt w ad k hk, ConstructElements_ok _ _ _ _ _ hth0]
    set p := w.alloc.nextPtr with hp
    set w1 : World α N :=
      { alloc := (w.alloc.allocate k).2,
        store := { w.store with data := .allocated p k,
                                isAllocated := true } } with hw1
    set w2 := constructRun w1 (.heap p 0) ad 0 k with hw2
    have hchain : WritesAt (fun q => ∃ b o, q = Ptr.heap b o) w1 w2 := by
      rw [hw2]
      exact constructRun_writesAt _ _ _ _ _ (fun j hj => ⟨p, 0 + j, rfl⟩)
    have hstore : w2.store = w1.store := hchain.store_eq (fun q hq => hq)
    refine ⟨_, rfl, ?_, fun hle => absurd hk (by omega),
      fun _ => ⟨?_, ?_, ?_, ?_⟩⟩
    · show w2.store.size + k = k
      rw [hstore]
      show w.store.size + k = k
      omega
    · show w2.store.isAllocated = true
      rw [hstore]
    · show w2.store.getAllocatedData = p
      rw [hstore]
      rfl
    · show w2.store.getAllocatedCapacity = k
      rw [hstore]
      rfl
    · intro j hj
      show w2.read (.heap p j) = some (ad.vals j)
      have hcw : w1.canWrite ((Ptr.heap p 0).add j) := by
        show 0 + j < (w1.alloc.readBuf p).length
        have : w1.alloc.readBuf p = List.replicate k none :=
          readBuf_allocate_self w.alloc k
        rw [this]
        simpa using hj
      have := constructRun_read_in w1 (.heap p 0) ad 0 k j hj hcw
      simpa [Ptr.add] using this
  · rw [Initialize_le w ad k hk, ConstructElements_ok _ _ _ _ _ hth0]
    set w2 := constructRun w (.inl 0) ad 0 k with hw2
    have hchain : WritesAt (fun q => ∃ o, q = Ptr.inl o) w w2 := by
      rw [hw2]
      exact constructRun_writesAt _ _ _ _ _ (fun j hj => ⟨0 + j, rfl⟩)
    refine ⟨_, rfl, ?_, fun _ => ⟨?_, ?_⟩, fun hgt => absurd hgt hk⟩
    · show w2.store.size + k = k
      rw [hchain.size_eq]
      omega
    · show w2.store.isAllocated = false
      rw [hchain.isAllocated_eq]
      exact ha
    · intro j hj
      show w2.read (.inl j) = some (ad.vals j)
      have hcw : w.canWrite ((Ptr.inl 0).add j) := by
        show 0 + j < (w.store.inlineView N).length
        rw [hv]
        omega
      have := constructRun_read_in w (.inl 0) ad 0 k j hj hcw
      simpa [Ptr.add] using this

/-- Witness for C4 at a concrete input (N = 2, k = 3, the heap case). -/
theorem Initialize_correct_witness :
    ∃ w', Initialize (emptyWorld Nat 2) ⟨fun j => j, fun _ => false⟩ 3 =
        .ok w' ∧ w'.store.size = 3 ∧
      (3 ≤ 2 → w'.store.isAllocated = false ∧
        ∀ j < 3, w'.read (.inl j) = some j) ∧
      (2 < 3 → w'.store.isAllocated = true ∧
        w'.store.getAllocatedData = (emptyWorld Nat 2).alloc.nextPtr ∧
        w'.store.getAllocatedCapacity = 3 ∧
        ∀ j < 3, w'.read (.heap (emptyWorld Nat 2).alloc.nextPtr j) =
          some j) :=
  Initialize_correct (emptyWorld Nat 2) ⟨fun j => j, fun _ => false⟩ 3
    (by decide) (by decide) (fun j hj => rfl) (by decide)

@[simp] theorem DestroyElements_zero (w : World α N) (first : Ptr) :
    DestroyElements w first 0 = w := rfl

/-- The destructor body on a Storage with size 0 holding a heap buffer:
no element is destroyed and the buffer is returned with its recorded
capacity. -/
theorem DestroyAndDeallocate_size_zero_heap (e : World α N)
    (hsz : e.store.size = 0) (hia : e.store.isAllocated = true) :
    DestroyAndDeallocate e =
      { e with alloc :=
          (e.alloc.deallocate e.store.getAllocatedData
            e.store.getAllocatedCapacity) } := by
  unfold DestroyAndDeallocate
  rw [hsz]
  simp only [DestroyElements_zero]
  rw [hia]
  rfl

/-! ### Claim C1 -/

/-- C1: Assign(adapter, newSize) with newSize beyond the current capacity,
when constructing into the freshly allocated buffer throws: after the
exception propagates, the Storage record (size, mode, data pointer,
capacity, and — inline or heap — all existing elements) and every
previously outstanding buffer are exactly as before the call, and the
fresh buffer has been returned to the allocator: it is no longer
outstanding and exactly one deallocate of it, with capacity newSize, was
logged by the transaction's destructor. -/
theorem Assign_grow_throw_strong (w : World α N) (ad : Adapter α)
    (newSize : Nat) (hcap : newSize > w.makeStorageView.capacity)
    (hfresh : w.alloc.fresh) (i : Nat) (hi : i < newSize)
    (ht : ad.throws i = true) (hmin : ∀ j < i, ad.throws j = false) :
    ∃ e, Assign w ad newSize = .error e ∧ e.store = w.store ∧
      e.alloc.bufs = w.alloc.bufs ∧
      e.alloc.deallocLog =
        w.alloc.deallocLog ++ [(w.alloc.nextPtr, newSize)] ∧
      e.alloc.nextPtr = w.alloc.nextPtr + 1 := by
  rw [Assign_grow w ad newSize hcap,
    ConstructElements_err _ _ _ _ _ i hi (by simpa using ht)
      (fun j hj => by simpa using hmin j hj)]
  set p := w.alloc.nextPtr with hp
  set w1 : World α N := { w with alloc := (w.alloc.allocate newSize).2 }
    with hw1
  set f := constructFail w1 (.heap p 0) ad 0 i with hf
  have hchain : WritesAt (fun q => ∃ o, q = Ptr.heap p o) w1 f := by
    rw [hf]
    exact constructFail_writesAt _ _ _ _ _ (fun j hj => ⟨0 + j, rfl⟩)
  refine ⟨_, rfl, ?_, ?_, ?_, ?_⟩
  · show f.store = w.store
    rw [hchain.store_eq (by rintro q ⟨o, rfl⟩; exact ⟨p, o, rfl⟩)]
  · show (f.alloc.deallocate p newSize).bufs = w.alloc.bufs
    rw [bufs_deallocate, hchain.filter_eq p (fun q hq => hq)]
    show (Buf.mk p newSize (List.replicate newSize none) ::
        w.alloc.bufs).filter (fun b => b.ptr != p) = w.alloc.bufs
    rw [List.filter_cons, if_neg (by simp)]
    exact filter_ne_of_fresh w.alloc p hfresh (Nat.le_refl _)
  · show (f.alloc.deallocate p newSize).deallocLog = _
    rw [deallocLog_deallocate, hchain.deallocLog_eq]
    rfl
  · show (f.alloc.deallocate p newSize).nextPtr = w.alloc.nextPtr + 1
    rw [nextPtr_deallocate, hchain.nextPtr_eq]
    rfl

/-- Witness for C1 at a concrete input (inline Storage, N = 2,
newSize = 3 > capacity 2, throw on the first construction). -/
theorem Assign_grow_throw_strong_witness :
    ∃ e, Assign (emptyWorld Nat 2) ⟨fun _ => 7, fun _ => true⟩ 3 =
        .error e ∧
      e.store = (emptyWorld Nat 2).store ∧
      e.alloc.bufs = (emptyWorld Nat 2).alloc.bufs ∧
      e.alloc.deallocLog = (emptyWorld Nat 2).alloc.deallocLog ++
        [((emptyWorld Nat 2).alloc.nextPtr, 3)] ∧
      e.alloc.nextPtr = (emptyWorld Nat 2).alloc.nextPtr + 1 :=
  Assign_grow_throw_strong (emptyWorld Nat 2) ⟨fun _ => 7, fun _ => true⟩ 3
    (by decide) (fun b hb => absurd hb (List.not_mem_nil b)) 0 (by decide)
    rfl (fun j hj => absurd hj (by omega))

/-! ### Claim C2 (corrected) -/

/-- C2 counterexample: take N = 2, an empty Inline Storage, and
Initialize(adapter, 3) where the first element construction throws. The
claim says the Storage ends exactly as it started — empty, Inline, size 0
— with the allocated Heap buffer already freed. In fact the error state
has the allocated bit set (mode Heap) and the buffer still outstanding
(one live allocation): the code transferred ownership to the Storage via
SetAllocatedData/SetIsAllocated before constructing, and relies on the
Storage destructor, not a pending allocation, to free the buffer. -/
theorem Initialize_throw_cex :
    (errWorld (Initialize (emptyWorld Nat 2)
        ⟨fun _ => 0, fun _ => true⟩ 3)).map
        (fun e => (e.store.isAllocated, e.alloc.bufs.length,
          e.alloc.deallocLog)) = some (true, 1, []) := rfl

/-- C2 (amended): Initialize(adapter, k) on an empty Inline Storage, when
construction of some element throws: the partially constructed elements
are destroyed and size stays 0. If k ≤ N nothing was allocated and the
Storage (and allocator) end exactly as they started. If k > N the Storage
is left owning the fresh buffer — mode Heap, capacity k, no live element —
and it is the Storage destructor, run as the exception unwinds the owning
constructor, that returns the buffer to the allocator, restoring the
allocator's outstanding set and logging exactly one deallocate. -/
theorem Initialize_throw (w : World α N) (ad : Adapter α) (k : Nat)
    (ha : w.store.isAllocated = false) (hs : w.store.size = 0)
    (hfresh : w.alloc.fresh) (hraw : ∀ j < N, w.read (.inl j) = none)
    (i : Nat) (hi : i < k) (ht : ad.throws i = true)
    (hmin : ∀ j < i, ad.throws j = false) :
    ∃ e, Initialize w ad k = .error e ∧ e.store.size = 0 ∧
      (k ≤ N → e.store.isAllocated = false ∧ e.alloc = w.alloc ∧
        ∀ j < N, e.read (.inl j) = none) ∧
      (N < k → e.store.isAllocated = true ∧
        e.store.getAllocatedData = w.alloc.nextPtr ∧
        e.store.getAllocatedCapacity = k ∧
        (∀ j < k, e.read (.heap w.alloc.nextPtr j) = none) ∧
        (DestroyAndDeallocate e).alloc.bufs = w.alloc.bufs ∧
        (DestroyAndDeallocate e).alloc.deallocLog =
          w.alloc.deallocLog ++ [(w.alloc.nextPtr, k)]) := by
  have ht0 : ad.throws (0 + i) = true := by simpa using ht
  have hmin0 : ∀ j < i, ad.throws (0 + j) = false := fun j hj => by
    simpa using hmin j hj
  by_cases hk : N < k
  · rw [Initialize_gt w ad k hk,
      ConstructElements_err _ _ _ _ _ i hi ht0 hmin0]
    set p := w.alloc.nextPtr with hp
    set w1 : World α N :=
      { alloc := (w.alloc.allocate k).2,
        store := { w.store with data := .allocated p k,
                                isAllocated := true } } with hw1
    set f := constructFail w1 (.heap p 0) ad 0 i with hf
    have hchain : WritesAt (fun q => ∃ o, q = Ptr.heap p o) w1 f := by
      rw [hf]
      exact constructFail_writesAt _ _ _ _ _ (fun j hj => ⟨0 + j, rfl⟩)
    have hchain2 : WritesAt (fun q => ∃ o, o < i ∧ q = Ptr.heap p (0 + o))
        w1 f := by
      rw [hf]
      exact constructFail_writesAt _ _ _ _ _ (fun j hj => ⟨j, hj, rfl⟩)
    have hstore : f.store = w1.store :=
      hchain.store_eq (by rintro q ⟨o, rfl⟩; exact ⟨p, o, rfl⟩)
    have hsz0 : f.store.size = 0 := by
      rw [hstore]
      exact hs
    have hia : f.store.isAllocated = true := by rw [hstore]
    have hgd : f.store.getAllocatedData = p := by
      rw [hstore]
      rfl
    have hgc : f.store.getAllocatedCapacity = k := by
      rw [hstore]
      rfl
    refine ⟨f, rfl, hsz0, fun hle => absurd hk (by omega),
      fun _ => ⟨hia, hgd, hgc, ?_, ?_, ?_⟩⟩
    · intro j hj
      by_cases hji : j < i
      · have := constructFail_read_in w1 (.heap p 0) ad 0 i j hji
        rw [hf]
        simpa [Ptr.add] using this
      · have hfr : f.read (.heap p j) = w1.read (.heap p j) :=
          hchain2.read_eq (by
            rintro q ⟨o, ho, rfl⟩
            intro hcontra
            rw [Ptr.heap.injEq] at hcontra
            obtain ⟨h1, h2⟩ := hcontra
            omega)
        rw [hfr]
        show ((w.alloc.allocate k).2.readBuf p).getD j none = none
        rw [readBuf_allocate_self]
        exact getD_replicate_none k j
    · rw [DestroyAndDeallocate_size_zero_heap f hsz0 hia, hgd, hgc]
      show (f.alloc.deallocate p k).bufs = w.alloc.bufs
      rw [bufs_deallocate, hchain.filter_eq p (fun q hq => hq)]
      show (Buf.mk p k (List.replicate k none) ::
          w.alloc.bufs).filter (fun b => b.ptr != p) = w.alloc.bufs
      rw [List.filter_cons, if_neg (by simp)]
      exact filter_ne_of_fresh w.alloc p hfresh (Nat.le_refl _)
    · rw [DestroyAndDeallocate_size_zero_heap f hsz0 hia, hgd, hgc]
      show (f.alloc.deallocate p k).deallocLog = _
      rw [deallocLog_deallocate, hchain.deallocLog_eq]
      rfl
  · rw [Initialize_le w ad k hk,
      ConstructElements_err _ _ _ _ _ i hi ht0 hmin0]
    set f := constructFail w (.inl 0) ad 0 i with hf
    have hchain : WritesAt (fun q => ∃ o, o < i ∧ q = Ptr.inl (0 + o))
        w f := by
      rw [hf]
      exact constructFail_writesAt _ _ _ _ _ (fun j hj => ⟨j, hj, rfl⟩)
    have halloc : f.alloc = w.alloc :=
      hchain.alloc_eq (by rintro q ⟨o, ho, rfl⟩; exact ⟨0 + o, rfl⟩)
    refine ⟨f, rfl, ?_, fun _ => ⟨?_, halloc, ?_⟩,
      fun hgt => absurd hgt hk⟩
    · rw [hchain.size_eq]
      exact hs
    · rw [hchain.isAllocated_eq]
      exact ha
    · intro j hj
      by_cases hji : j < i
      · have := constructFail_read_in w (.inl 0) ad 0 i j hji
        rw [hf]
        simpa [Ptr.add] using this
      · have hfr : f.read (.inl j) = w.read (.inl j) :=
          hchain.read_eq (by
            rintro q ⟨o, ho, rfl⟩
            intro hcontra
            rw [Ptr.inl.injEq] at hcontra
            omega)
        rw [hfr]
        exact hraw j hj

/-- Witness for the amended C2 at a concrete input (N = 2, k = 3, the
second construction throws). -/
theorem Initialize_throw_witness :
    ∃ e, Initialize (emptyWorld Nat 2)
        ⟨fun j => j, fun j => j == 1⟩ 3 = .error e ∧
      e.store.size = 0 ∧
      (3 ≤ 2 → e.store.isAllocated = false ∧
        e.alloc = (emptyWorld Nat 2).alloc ∧
        ∀ j < 2, e.read (.inl j) = none) ∧
      (2 < 3 → e.store.isAllocated = true ∧
        e.store.getAllocatedData = (emptyWorld Nat 2).alloc.nextPtr ∧
        e.store.getAllocatedCapacity = 3 ∧
        (∀ j < 3, e.read (.heap (emptyWorld Nat 2).alloc.nextPtr j) =
          none) ∧
        (DestroyAndDeallocate e).alloc.bufs =
          (emptyWorld Nat 2).alloc.bufs ∧
        (DestroyAndDeallocate e).alloc.deallocLog =
          (emptyWorld Nat 2).alloc.deallocLog ++
            [((emptyWorld Nat 2).alloc.nextPtr, 3)]) :=
  Initialize_throw (emptyWorld Nat 2) ⟨fun j => j, fun j => j == 1⟩ 3
    (by decide) (by decide) (fun b hb => absurd hb (List.not_mem_nil b))
    (by decide) 1 (by decide) (by decide) (by decide)

/-! ### View and buffer helpers for the Assign and ShrinkToFit proofs -/

theorem makeStorageView_heap (w : World α N)
    (hA : w.store.isAllocated = true) :
    w.makeStorageView = ⟨.heap w.store.getAllocatedData 0, w.store.size,
      w.store.getAllocatedCapacity⟩ := by
  unfold World.makeStorageView
  rw [if_pos hA]

theorem makeStorageView_inl (w : World α N)
    (hA : w.store.isAllocated = false) :
    w.makeStorageView = ⟨.inl 0, w.store.size, N⟩ := by
  unfold World.makeStorageView
  rw [if_neg (by simp [hA])]

theorem makeStorageView_data_eq (w wx : World α N)
    (hA : wx.store.isAllocated = w.store.isAllocated)
    (hD : w.store.isAllocated = true →
      wx.store.getAllocatedData = w.store.getAllocatedData) :
    wx.makeStorageView.data = w.makeStorageView.data := by
  unfold World.makeStorageView
  rw [hA]
  by_cases h : w.store.isAllocated = true
  · rw [if_pos h, if_pos h, hD h]
  · rw [if_neg h, if_neg h]

theorem read_set_size (w : World α N) (k : Nat) (p : Ptr) :
    World.read (N := N)
      { alloc := w.alloc, store := { w.store with size := k } } p =
      w.read p := by
  cases p <;> rfl

theorem write_readBuf_other (w : World α N) (p : Ptr) (v : Option α)
    (b : Nat) (h : ∀ o, p ≠ .heap b o) :
    (w.write p v).alloc.readBuf b = w.alloc.readBuf b := by
  cases p with
  | heap c o =>
      refine readBuf_writeBufSlot_other _ _ _ _ _ ?_
      intro hb
      exact (h o) (by rw [hb])
  | inl o => rfl

theorem WritesAt.readBuf_eq {P : Ptr → Prop} {w w' : World α N}
    (h : WritesAt P w w') (b : Nat)
    (hb : ∀ q, P q → ∀ o, q ≠ .heap b o) :
    w'.alloc.readBuf b = w.alloc.readBuf b := by
  induction h with
  | refl => rfl
  | step hp hc ih =>
      rw [ih, write_readBuf_other _ _ _ _ (hb _ hp)]

theorem read_alloc_congr (w1 w2 : World α N) (b o : Nat)
    (h : w1.alloc.readBuf b = w2.alloc.readBuf b) :
    w1.read (.heap b o) = w2.read (.heap b o) := by
  show (w1.alloc.readBuf b).getD o none = (w2.alloc.readBuf b).getD o none
  rw [h]

/-! ### Claim C3 -/

/-- C3: Assign(adapter, newSize), when no adapter invocation throws,
leaves size = newSize, the first newSize slots of the active region
holding the adapter's values in sequence, and no live element at or
beyond index newSize — in each of the three cases newSize > curCapacity,
curSize < newSize ≤ curCapacity, and newSize ≤ curSize. -/
theorem Assign_correct (w : World α N) (ad : Adapter α) (newSize : Nat)
    (hth : ∀ j < newSize, ad.throws j = false)
    (hlive : w.store.isAllocated = true →
      (w.alloc.readBuf w.store.getAllocatedData).length =
        w.store.getAllocatedCapacity ∧
      w.store.getAllocatedData < w.alloc.nextPtr)
    (hv : (w.store.inlineView N).length = N)
    (hpre : ∀ j, j < w.makeStorageView.capacity →
      w.makeStorageView.size ≤ j →
      w.read (w.makeStorageView.data.add j) = none) :
    ∃ w', Assign w ad newSize = .ok w' ∧ w'.store.size = newSize ∧
      (∀ j < newSize, w'.read (w'.makeStorageView.data.add j) =
        some (ad.vals j)) ∧
      (∀ j, newSize ≤ j → w'.read (w'.makeStorageView.data.add j) =
        none) := by
  have hth0 : ∀ j < newSize, ad.throws (0 + j) = false := fun j hj => by
    simpa using hth j hj
  by_cases h1 : newSize > w.makeStorageView.capacity
  · -- grow beyond capacity: fresh buffer, construct, destroy old, commit
    set p := w.alloc.nextPtr with hp
    set w1 : World α N := { w with alloc := (w.alloc.allocate newSize).2 }
      with hw1
    set w2 := constructRun w1 (.heap p 0) ad 0 newSize with hw2
    set w3 := DestroyElements w2 w.makeStorageView.data
      w.makeStorageView.size with hw3
    have hchain2 : WritesAt (fun q => ∃ o, q = Ptr.heap p o) w1 w2 := by
      rw [hw2]
      exact constructRun_writesAt _ _ _ _ _ (fun j hj => ⟨0 + j, rfl⟩)
    have hlen2 : (w2.alloc.readBuf p).length = newSize := by
      rw [hchain2.readBuf_length p]
      show ((w.alloc.allocate newSize).2.readBuf p).length = newSize
      rw [readBuf_allocate_self]
      simp
    have hres0 : Assign w ad newSize =
        .ok { alloc := if w3.store.isAllocated then
                (w3.alloc.deallocate w3.store.getAllocatedData
                  w3.store.getAllocatedCapacity)
              else w3.alloc,
              store := { w3.store with data := .allocated p newSize,
                                       isAllocated := true,
                                       size := newSize } } := by
      rw [Assign_grow w ad newSize h1, ConstructElements_ok _ _ _ _ _ hth0]
    by_cases hA : w.store.isAllocated = true
    · have hdfact := hlive hA
      have hsvEq : w.makeStorageView =
          ⟨.heap w.store.getAllocatedData 0, w.store.size,
            w.store.getAllocatedCapacity⟩ := makeStorageView_heap w hA
      have hdp : w.store.getAllocatedData ≠ p := by
        have := hdfact.2
        omega
      have hchain3 : WritesAt
          (fun q => ∃ o, q = Ptr.heap w.store.getAllocatedData o) w2 w3 := by
        rw [hw3, hsvEq]
        exact DestroyElements_writesAt _ _ _ (fun j hj => ⟨0 + j, rfl⟩)
      have hstore3 : w3.store = w.store := by
        rw [hchain3.store_eq (by rintro q ⟨o, rfl⟩; exact ⟨_, o, rfl⟩)]
        rw [hchain2.store_eq (by rintro q ⟨o, rfl⟩; exact ⟨_, o, rfl⟩)]
      have hiso3 : w3.store.isAllocated = true := by
        rw [hstore3]
        exact hA
      rw [if_pos hiso3, hstore3] at hres0
      have hbufp : (w.alloc.deallocate w.store.getAllocatedData
            w.store.getAllocatedCapacity).readBuf p = w.alloc.readBuf p :=
        readBuf_deallocate_other _ _ _ _ (fun hcontra => hdp hcontra.symm)
      have hbufp3 : w3.alloc.readBuf p = w2.alloc.readBuf p :=
        hchain3.readBuf_eq p (by
          rintro q ⟨o, rfl⟩
          intro o2 hcontra
          rw [Ptr.heap.injEq] at hcontra
          exact hdp hcontra.1)
      refine ⟨_, hres0, rfl, ?_, ?_⟩
      · intro j hj
        have hview : (World.makeStorageView (N := N)
            { alloc := (w3.alloc.deallocate w.store.getAllocatedData
                w.store.getAllocatedCapacity),
              store := { w.store with data := .allocated p newSize,
                                      isAllocated := true,
                                      size := newSize } }).data =
            Ptr.heap p 0 := by
          rw [makeStorageView_heap _ rfl]
          rfl
        rw [hview]
        have hptr : (Ptr.heap p 0).add j = Ptr.heap p j := by
          simp [Ptr.add]
        rw [hptr]
        have hrb : ((w3.alloc.deallocate w.store.getAllocatedData
            w.store.getAllocatedCapacity)).readBuf p =
            w2.alloc.readBuf p := by
          rw [readBuf_deallocate_other _ _ _ _
            (fun hcontra => hdp hcontra.symm), hbufp3]
        show ((w3.alloc.deallocate w.store.getAllocatedData
            w.store.getAllocatedCapacity).readBuf p).getD j none =
          some (ad.vals j)
        rw [hrb]
        have hcw : w1.canWrite ((Ptr.heap p 0).add j) := by
          show 0 + j < (w1.alloc.readBuf p).length
          show 0 + j < ((w.alloc.allocate newSize).2.readBuf p).length
          rw [readBuf_allocate_self]
          simpa using hj
        have := constructRun_read_in w1 (.heap p 0) ad 0 newSize j hj hcw
        simpa [Ptr.add, World.read] using this
      · intro j hj
        have hview : (World.makeStorageView (N := N)
            { alloc := (w3.alloc.deallocate w.store.getAllocatedData
                w.store.getAllocatedCapacity),
              store := { w.store with data := .allocated p newSize,
                                      isAllocated := true,
                                      size := newSize } }).data =
            Ptr.heap p 0 := by
          rw [makeStorageView_heap _ rfl]
          rfl
        rw [hview]
        have hptr : (Ptr.heap p 0).add j = Ptr.heap p j := by
          simp [Ptr.add]
        rw [hptr]
        show ((w3.alloc.deallocate w.store.getAllocatedData
            w.store.getAllocatedCapacity).readBuf p).getD j none = none
        rw [readBuf_deallocate_other _ _ _ _
          (fun hcontra => hdp hcontra.symm), hbufp3]
        exact getD_oob _ _ _ (by omega)
    · -- original storage is inline: the transaction buffer is adopted,
      -- nothing is deallocated
      have hA2 : w.store.isAllocated = false := by
        cases hAb : w.store.isAllocated
        · rfl
        · exact absurd hAb hA
      have hsvEq : w.makeStorageView = ⟨.inl 0, w.store.size, N⟩ :=
        makeStorageView_inl w hA2
      have hchain3 : WritesAt (fun q => ∃ o, q = Ptr.inl o) w2 w3 := by
        rw [hw3, hsvEq]
        exact DestroyElements_writesAt _ _ _ (fun j hj => ⟨0 + j, rfl⟩)
      have halloc3 : w3.alloc = w2.alloc :=
        hchain3.alloc_eq (by rintro q ⟨o, rfl⟩; exact ⟨o, rfl⟩)
      have hiso3 : w3.store.isAllocated = false := by
        rw [hchain3.isAllocated_eq, hchain2.isAllocated_eq]
        exact hA2
      rw [if_neg (by rw [hiso3]; exact Bool.false_ne_true), halloc3]
        at hres0
      refine ⟨_, hres0, rfl, ?_, ?_⟩
      · intro j hj
        have hview : (World.makeStorageView (N := N)
            { alloc := w2.alloc,
              store := { w3.store with data := .allocated p newSize,
                                       isAllocated := true,
                                       size := newSize } }).data =
            Ptr.heap p 0 := by
          rw [makeStorageView_heap _ rfl]
          rfl
        rw [hview]
        have hptr : (Ptr.heap p 0).add j = Ptr.heap p j := by
          simp [Ptr.add]
        rw [hptr]
        show (w2.alloc.readBuf p).getD j none = some (ad.vals j)
        have hcw : w1.canWrite ((Ptr.heap p 0).add j) := by
          show 0 + j < (w1.alloc.readBuf p).length
          show 0 + j < ((w.alloc.allocate newSize).2.readBuf p).length
          rw [readBuf_allocate_self]
          simpa using hj
        have := constructRun_read_in w1 (.heap p 0) ad 0 newSize j hj hcw
        simpa [Ptr.add, World.read] using this
      · intro j hj
        have hview : (World.makeStorageView (N := N)
            { alloc := w2.alloc,
              store := { w3.store with data := .allocated p newSize,
                                       isAllocated := true,
                                       size := newSize } }).data =
            Ptr.heap p 0 := by
          rw [makeStorageView_heap _ rfl]
          rfl
        rw [hview]
        have hptr : (Ptr.heap p 0).add j = Ptr.heap p j := by
          simp [Ptr.add]
        rw [hptr]
        show (w2.alloc.readBuf p).getD j none = none
        exact getD_oob _ _ _ (by omega)
  · -- newSize fits the current capacity: the in-place cases
    have hcw : ∀ j, j < newSize →
        w.canWrite (w.makeStorageView.data.add j) := by
      intro j hj
      by_cases hA : w.store.isAllocated = true
      · have hcap : w.makeStorageView.capacity =
            w.store.getAllocatedCapacity := by
          rw [makeStorageView_heap w hA]
        rw [makeStorageView_heap w hA]
        show 0 + j < (w.alloc.readBuf w.store.getAllocatedData).length
        rw [(hlive hA).1]
        omega
      · have hA2 : w.store.isAllocated = false := by
          cases hAb : w.store.isAllocated
          · rfl
          · exact absurd hAb hA
        have hcap : w.makeStorageView.capacity = N := by
          rw [makeStorageView_inl w hA2]
        rw [makeStorageView_inl w hA2]
        show 0 + j < (w.store.inlineView N).length
        rw [hv]
        omega
    have hwnone : ∀ j, w.makeStorageView.size ≤ j →
        w.read (w.makeStorageView.data.add j) = none := by
      intro j hj
      by_cases hjc : j < w.makeStorageView.capacity
      · exact hpre j hjc hj
      · by_cases hA : w.store.isAllocated = true
        · have hcap : w.makeStorageView.capacity =
              w.store.getAllocatedCapacity := by
            rw [makeStorageView_heap w hA]
          rw [makeStorageView_heap w hA]
          show (w.alloc.readBuf w.store.getAllocatedData).getD (0 + j)
            none = none
          apply getD_oob
          rw [(hlive hA).1]
          omega
        · have hA2 : w.store.isAllocated = false := by
            cases hAb : w.store.isAllocated
            · rfl
            · exact absurd hAb hA
          have hcap : w.makeStorageView.capacity = N := by
            rw [makeStorageView_inl w hA2]
          rw [makeStorageView_inl w hA2]
          show (w.store.inlineView N).getD (0 + j) none = none
          apply getD_oob
          rw [hv]
          omega
    have hheapwr : w.store.isAllocated = true → ∀ o : Nat,
        ∃ b o2, w.makeStorageView.data.add o = Ptr.heap b o2 := by
      intro hA o
      rw [makeStorageView_heap w hA]
      exact ⟨_, 0 + o, rfl⟩
    by_cases h2 : newSize > w.makeStorageView.size
    · -- grow within capacity: assign over the old prefix, construct the
      -- remainder in place, continuing the adapter sequence
      set wA := constructRun w w.makeStorageView.data ad 0
        w.makeStorageView.size with hwA
      set wB := constructRun wA
        (w.makeStorageView.data.add w.makeStorageView.size) ad
        (0 + w.makeStorageView.size)
        (newSize - w.makeStorageView.size) with hwB
      have hres0 : Assign w ad newSize =
          .ok { wB with store := { wB.store with size := newSize } } := by
        rw [Assign_mid w ad newSize h1 h2]
        rw [AssignElements_ok _ _ _ _ _ (fun j hj => hth0 j (by omega))]
        show (match ConstructElements wA
            (w.makeStorageView.data.add w.makeStorageView.size) ad
            (0 + w.makeStorageView.size) (newSize - w.makeStorageView.size)
            with
          | Except.error e => Except.error e
          | Except.ok (w2, _) =>
              Except.ok { w2 with store :=
                { w2.store with size := newSize } } :
          Except (World α N) (World α N)) = _
        rw [ConstructElements_ok _ _ _ _ _ (fun j hj => by
          have hlt : (0 + w.makeStorageView.size) + j < newSize := by
            omega
          exact hth _ hlt)]
      have hchA : WritesAt (fun q => ∃ o, o < w.makeStorageView.size ∧
          q = w.makeStorageView.data.add o) w wA := by
        rw [hwA]
        exact constructRun_writesAt _ _ _ _ _ (fun j hj => ⟨j, hj, rfl⟩)
      have hchB : WritesAt (fun q => ∃ o, w.makeStorageView.size ≤ o ∧
          o < newSize ∧ q = w.makeStorageView.data.add o) wA wB := by
        rw [hwB]
        refine constructRun_writesAt _ _ _ _ _ (fun j hj => ?_)
        exact ⟨w.makeStorageView.size + j, by omega, by omega,
          Ptr.add_add _ _ _⟩
      have hchAB : WritesAt (fun q => ∃ o, o < newSize ∧
          q = w.makeStorageView.data.add o) w wB :=
        (hchA.mono (by rintro q ⟨o, ho, rfl⟩; exact ⟨o, by omega, rfl⟩)).trans
          (hchB.mono (by rintro q ⟨o, ho1, ho2, rfl⟩; exact ⟨o, ho2, rfl⟩))
      have hAeq : wB.store.isAllocated = w.store.isAllocated := by
        rw [hchB.isAllocated_eq, hchA.isAllocated_eq]
      have hdata : w.store.isAllocated = true → wB.store = w.store := by
        intro hA
        exact hchAB.store_eq (by
          rintro q ⟨o, ho, rfl⟩
          exact hheapwr hA o)
      have hview : (World.makeStorageView (N := N)
          { alloc := wB.alloc,
            store := { wB.store with size := newSize } }).data =
          w.makeStorageView.data := by
        apply makeStorageView_data_eq
        · exact hAeq
        · intro hA
          show wB.store.getAllocatedData = w.store.getAllocatedData
          rw [hdata hA]
      refine ⟨_, hres0, rfl, ?_, ?_⟩
      · intro j hj
        rw [hview, read_set_size]
        by_cases hjs : j < w.makeStorageView.size
        · have hfr : wB.read (w.makeStorageView.data.add j) =
              wA.read (w.makeStorageView.data.add j) :=
            hchB.read_eq (by
              rintro q ⟨o, ho1, ho2, rfl⟩
              exact Ptr.add_ne _ _ _ (by omega))
          rw [hfr, hwA]
          have := constructRun_read_in w w.makeStorageView.data ad 0
            w.makeStorageView.size j hjs (hcw j (by omega))
          simpa using this
        · have hj2 : j - w.makeStorageView.size <
              newSize - w.makeStorageView.size := by omega
          have hcwA : wA.canWrite
              ((w.makeStorageView.data.add w.makeStorageView.size).add
                (j - w.makeStorageView.size)) := by
            rw [Ptr.add_add]
            have harg : w.makeStorageView.size +
                (j - w.makeStorageView.size) = j := by omega
            rw [harg]
            exact hchA.canWrite (hcw j hj)
          have := constructRun_read_in wA
            (w.makeStorageView.data.add w.makeStorageView.size) ad
            (0 + w.makeStorageView.size) (newSize - w.makeStorageView.size)
            (j - w.makeStorageView.size) hj2 hcwA
          rw [Ptr.add_add] at this
          have harg : w.makeStorageView.size +
              (j - w.makeStorageView.size) = j := by omega
          rw [harg] at this
          have hval : (0 + w.makeStorageView.size) +
              (j - w.makeStorageView.size) = j := by omega
          rw [hval] at this
          rw [hwB]
          exact this
      · intro j hj
        rw [hview, read_set_size]
        have hfrB : wB.read (w.makeStorageView.data.add j) =
            wA.read (w.makeStorageView.data.add j) :=
          hchB.read_eq (by
            rintro q ⟨o, ho1, ho2, rfl⟩
            exact Ptr.add_ne _ _ _ (by omega))
        have hfrA : wA.read (w.makeStorageView.data.add j) =
            w.read (w.makeStorageView.data.add j) :=
          hchA.read_eq (by
            rintro q ⟨o, ho, rfl⟩
            exact Ptr.add_ne _ _ _ (by omega))
        rw [hfrB, hfrA]
        exact hwnone j (by omega)
    · -- shrink: assign over the first newSize slots, destroy the excess
      set wA := constructRun w w.makeStorageView.data ad 0 newSize
        with hwA
      set wD := DestroyElements wA (w.makeStorageView.data.add newSize)
        (w.makeStorageView.size - newSize) with hwD
      have hres0 : Assign w ad newSize =
          .ok { wD with store := { wD.store with size := newSize } } := by
        rw [Assign_shrink w ad newSize h1 h2,
          AssignElements_ok _ _ _ _ _ (fun j hj => hth0 j hj)]
      have hchA : WritesAt (fun q => ∃ o, o < newSize ∧
          q = w.makeStorageView.data.add o) w wA := by
        rw [hwA]
        exact constructRun_writesAt _ _ _ _ _ (fun j hj => ⟨j, hj, rfl⟩)
      have hchD : WritesAt (fun q => ∃ o, newSize ≤ o ∧
          o < w.makeStorageView.size ∧
          q = w.makeStorageView.data.add o) wA wD := by
        rw [hwD]
        refine DestroyElements_writesAt _ _ _ (fun j hj => ?_)
        exact ⟨newSize + j, by omega, by omega, Ptr.add_add _ _ _⟩
      have hchAD : WritesAt (fun q => ∃ o, o < w.makeStorageView.size ∧
          q = w.makeStorageView.data.add o) w wD :=
        (hchA.mono (by rintro q ⟨o, ho, rfl⟩; exact ⟨o, by omega, rfl⟩)).trans
          (hchD.mono (by rintro q ⟨o, ho1, ho2, rfl⟩; exact ⟨o, ho2, rfl⟩))
      have hAeq : wD.store.isAllocated = w.store.isAllocated := by
        rw [hchD.isAllocated_eq, hchA.isAllocated_eq]
      have hdata : w.store.isAllocated = true → wD.store = w.store := by
        intro hA
        exact hchAD.store_eq (by
          rintro q ⟨o, ho, rfl⟩
          exact hheapwr hA o)
      have hview : (World.makeStorageView (N := N)
          { alloc := wD.alloc,
            store := { wD.store with size := newSize } }).data =
          w.makeStorageView.data := by
        apply makeStorageView_data_eq
        · exact hAeq
        · intro hA
          show wD.store.getAllocatedData = w.store.getAllocatedData
          rw [hdata hA]
      refine ⟨_, hres0, rfl, ?_, ?_⟩
      · intro j hj
        rw [hview, read_set_size]
        have hfr : wD.read (w.makeStorageView.data.add j) =
            wA.read (w.makeStorageView.data.add j) :=
          hchD.read_eq (by
            rintro q ⟨o, ho1, ho2, rfl⟩
            exact Ptr.add_ne _ _ _ (by omega))
        rw [hfr, hwA]
        have := constructRun_read_in w w.makeStorageView.data ad 0
          newSize j hj (hcw j hj)
        simpa using this
      · intro j hj
        rw [hview, read_set_size]
        by_cases hjs : j < w.makeStorageView.size
        · have hj2 : j - newSize < w.makeStorageView.size - newSize := by
            omega
          have := DestroyElements_read_in wA
            (w.makeStorageView.data.add newSize)
            (w.makeStorageView.size - newSize) (j - newSize) hj2
          rw [Ptr.add_add] at this
          have harg : newSize + (j - newSize) = j := by omega
          rw [harg] at this
          rw [hwD]
          exact this
        · have hfrD : wD.read (w.makeStorageView.data.add j) =
              wA.read (w.makeStorageView.data.add j) :=
            hchD.read_eq (by
              rintro q ⟨o, ho1, ho2, rfl⟩
              exact Ptr.add_ne _ _ _ (by omega))
          have hfrA : wA.read (w.makeStorageView.data.add j) =
              w.read (w.makeStorageView.data.add j) :=
            hchA.read_eq (by
              rintro q ⟨o, ho, rfl⟩
              exact Ptr.add_ne _ _ _ (by omega))
          rw [hfrD, hfrA]
          exact hwnone j (by omega)

/-- Witness for C3 at a concrete input (N = 2, empty Storage, newSize = 1,
the grow-within-capacity case). -/
theorem Assign_correct_witness :
    ∃ w', Assign (emptyWorld Nat 2) ⟨fun j => j + 10, fun _ => false⟩ 1 =
        .ok w' ∧ w'.store.size = 1 ∧
      (∀ j < 1, w'.read (w'.makeStorageView.data.add j) =
        some (j + 10)) ∧
      (∀ j, 1 ≤ j → w'.read (w'.makeStorageView.data.add j) = none) :=
  Assign_correct (emptyWorld Nat 2) ⟨fun j => j + 10, fun _ => false⟩ 1
    (fun j hj => rfl) (fun h => absurd h (by decide)) (by decide)
    (by decide)

/-! ### Every helper outcome is a chain of writes -/

theorem ConstructElements_writesAt {P : Ptr → Prop} (w : World α N)
    (first : Ptr) (ad : Adapter α) (cur n : Nat)
    (hP : ∀ j < n, P (first.add j)) (r : World α N)
    (hr : ConstructElements w first ad cur n = .error r ∨
      ∃ c, ConstructElements w first ad cur n = .ok (r, c)) :
    WritesAt P w r := by
  induction n generalizing w first cur r with
  | zero =>
      rcases hr with hr | ⟨c, hr⟩
      · exact absurd hr (by simp [ConstructElements])
      · have heq : ConstructElements w first ad cur 0 = .ok (w, cur) := rfl
        rw [heq] at hr
        injection hr with hr2
        injection hr2 with hw hc
        rw [← hw]
        exact .refl _
  | succ m ih =>
      have hP0 : P first := by
        have := hP 0 (Nat.succ_pos m)
        simpa using this
      have hPt : ∀ j < m, P ((first.add 1).add j) := fun j hj => by
        rw [Ptr.add_add]
        exact hP (1 + j) (by omega)
      by_cases hthc : ad.throws cur = true
      · have heq : ConstructElements w first ad cur (m + 1) = .error w := by
          show (if ad.throws cur then _ else _) = _
          rw [if_pos hthc]
        rcases hr with hr | ⟨c, hr⟩
        · rw [heq] at hr
          injection hr with hw
          rw [← hw]
          exact .refl _
        · rw [heq] at hr
          exact absurd hr (by simp)
      · have heq : ConstructElements w first ad cur (m + 1) =
            match ConstructElements (w.write first (some (ad.vals cur)))
                (first.add 1) ad (cur + 1) m with
            | .ok r2 => .ok r2
            | .error e => .error (e.write first none) := by
          show (if ad.throws cur then _ else _) = _
          rw [if_neg hthc]
        rw [heq] at hr
        cases hE : ConstructElements (w.write first (some (ad.vals cur)))
            (first.add 1) ad (cur + 1) m with
        | error e =>
            rw [hE] at hr
            rcases hr with hr | ⟨c, hr⟩
            · injection hr with hw
              rw [← hw]
              have hchain : WritesAt P (w.write first (some (ad.vals cur)))
                  e := ih _ _ _ hPt e (Or.inl hE)
              exact (WritesAt.step hP0 hchain).trans
                (.step hP0 (.refl _))
            · exact absurd hr (by simp)
        | ok r2 =>
            rw [hE] at hr
            rcases hr with hr | ⟨c, hr⟩
            · exact absurd hr (by simp)
            · injection hr with hr2
              have hchain : WritesAt P (w.write first (some (ad.vals cur)))
                  r := ih _ _ _ hPt r (Or.inr ⟨c, by rw [hE, hr2]⟩)
              exact .step hP0 hchain

theorem AssignElements_writesAt {P : Ptr → Prop} (w : World α N)
    (first : Ptr) (ad : Adapter α) (cur n : Nat)
    (hP : ∀ j < n, P (first.add j)) (r : World α N)
    (hr : AssignElements w first ad cur n = .error r ∨
      ∃ c, AssignElements w first ad cur n = .ok (r, c)) :
    WritesAt P w r := by
  induction n generalizing w first cur r with
  | zero =>
      rcases hr with hr | ⟨c, hr⟩
      · exact absurd hr (by simp [AssignElements])
      · have heq : AssignElements w first ad cur 0 = .ok (w, cur) := rfl
        rw [heq] at hr
        injection hr with hr2
        injection hr2 with hw hc
        rw [← hw]
        exact .refl _
  | succ m ih =>
      have hP0 : P first := by
        have := hP 0 (Nat.succ_pos m)
        simpa using this
      have hPt : ∀ j < m, P ((first.add 1).add j) := fun j hj => by
        rw [Ptr.add_add]
        exact hP (1 + j) (by omega)
      by_cases hthc : ad.throws cur = true
      · have heq : AssignElements w first ad cur (m + 1) = .error w := by
          show (if ad.throws cur then _ else _) = _
          rw [if_pos hthc]
        rcases hr with hr | ⟨c, hr⟩
        · rw [heq] at hr
          injection hr with hw
          rw [← hw]
          exact .refl _
        · rw [heq] at hr
          exact absurd hr (by simp)
      · have heq : AssignElements w first ad cur (m + 1) =
            AssignElements (w.write first (some (ad.vals cur)))
              (first.add 1) ad (cur + 1) m := by
          show (if ad.throws cur then _ else _) = _
          rw [if_neg hthc]
        rw [heq] at hr
        exact .step hP0 (ih _ _ _ hPt r hr)

/-! ### Claim C9 -/

/-- C9: for a Heap Storage and Assign(adapter, newSize) with newSize at
most the current capacity — whether the call returns normally or an
adapter invocation throws — the mode, data pointer and capacity are
unchanged, and the allocator is untouched: Assign never shrinks capacity,
never allocates (fresh counter and outstanding (ptr, cap) shapes
unchanged) and never deallocates (log unchanged) in this case. -/
theorem Assign_within_capacity_frame (w : World α N) (ad : Adapter α)
    (newSize : Nat) (wr : World α N) (hA : w.store.isAllocated = true)
    (hcap : newSize ≤ w.store.getAllocatedCapacity)
    (hres : Assign w ad newSize = .ok wr ∨
      Assign w ad newSize = .error wr) :
    wr.store.isAllocated = true ∧
    wr.store.getAllocatedData = w.store.getAllocatedData ∧
    wr.store.getAllocatedCapacity = w.store.getAllocatedCapacity ∧
    wr.alloc.nextPtr = w.alloc.nextPtr ∧
    wr.alloc.deallocLog = w.alloc.deallocLog ∧
    wr.alloc.shape = w.alloc.shape := by
  have hsv := makeStorageView_heap w hA
  have hc : w.makeStorageView.capacity = w.store.getAllocatedCapacity := by
    rw [hsv]
  have hd : w.makeStorageView.data =
      Ptr.heap w.store.getAllocatedData 0 := by
    rw [hsv]
  have h1 : ¬ newSize > w.makeStorageView.capacity := by omega
  set P : Ptr → Prop :=
    fun q => ∃ o, q = Ptr.heap w.store.getAllocatedData o with hP
  have hdone : ∀ wx : World α N, WritesAt P w wx →
      wx.store.isAllocated = true ∧
      wx.store.getAllocatedData = w.store.getAllocatedData ∧
      wx.store.getAllocatedCapacity = w.store.getAllocatedCapacity ∧
      wx.alloc.nextPtr = w.alloc.nextPtr ∧
      wx.alloc.deallocLog = w.alloc.deallocLog ∧
      wx.alloc.shape = w.alloc.shape := by
    intro wx hch
    have hst : wx.store = w.store :=
      hch.store_eq (by rintro q ⟨o, rfl⟩; exact ⟨_, o, rfl⟩)
    exact ⟨by rw [hst]; exact hA, by rw [hst], by rw [hst],
      hch.nextPtr_eq, hch.deallocLog_eq, hch.shape_eq⟩
  have hfin : ∀ wx : World α N, WritesAt P w wx →
      ∀ wy : World α N, wy.alloc = wx.alloc → wy.store.size = newSize →
      wy.store.isAllocated = wx.store.isAllocated →
      wy.store.data = wx.store.data →
      wy.store.isAllocated = true ∧
      wy.store.getAllocatedData = w.store.getAllocatedData ∧
      wy.store.getAllocatedCapacity = w.store.getAllocatedCapacity ∧
      wy.alloc.nextPtr = w.alloc.nextPtr ∧
      wy.alloc.deallocLog = w.alloc.deallocLog ∧
      wy.alloc.shape = w.alloc.shape := by
    intro wx hch wy hal hsz hia hdata
    obtain ⟨c1, c2, c3, c4, c5, c6⟩ := hdone wx hch
    refine ⟨by rw [hia]; exact c1, ?_, ?_, by rw [hal]; exact c4,
      by rw [hal]; exact c5, by rw [hal]; exact c6⟩
    · show wy.store.getAllocatedData = _
      unfold Storage.getAllocatedData
      rw [hdata]
      exact c2
    · show wy.store.getAllocatedCapacity = _
      unfold Storage.getAllocatedCapacity
      rw [hdata]
      exact c3
  have hPd : ∀ j : Nat, P (w.makeStorageView.data.add j) := by
    intro j
    rw [hd]
    exact ⟨0 + j, rfl⟩
  have hPd2 : ∀ off j : Nat,
      P ((w.makeStorageView.data.add off).add j) := by
    intro off j
    rw [Ptr.add_add]
    exact hPd (off + j)
  by_cases h2 : newSize > w.makeStorageView.size
  · rw [Assign_mid w ad newSize h1 h2] at hres
    rcases hres with hres | hres <;> split at hres
    · exact absurd hres (by simp)
    · rename_i w1 cur heqA
      split at hres
      · exact absurd hres (by simp)
      · rename_i w2 c2 heqC
        injection hres with hres2
        have hchA : WritesAt P w w1 :=
          AssignElements_writesAt w _ ad 0 _ (fun j hj => hPd j) w1
            (Or.inr ⟨cur, heqA⟩)
        have hchC : WritesAt P w1 w2 :=
          ConstructElements_writesAt w1 _ ad cur _
            (fun j hj => hPd2 _ j) w2 (Or.inr ⟨c2, heqC⟩)
        refine hfin w2 (hchA.trans hchC) wr ?_ ?_ ?_ ?_ <;> rw [← hres2]
    · rename_i e heqA
      injection hres with hres2
      rw [← hres2]
      exact hdone e (AssignElements_writesAt w _ ad 0 _
        (fun j hj => hPd j) e (Or.inl heqA))
    · rename_i w1 cur heqA
      split at hres
      · rename_i e heqC
        injection hres with hres2
        rw [← hres2]
        have hchA : WritesAt P w w1 :=
          AssignElements_writesAt w _ ad 0 _ (fun j hj => hPd j) w1
            (Or.inr ⟨cur, heqA⟩)
        have hchC : WritesAt P w1 e :=
          ConstructElements_writesAt w1 _ ad cur _
            (fun j hj => hPd2 _ j) e (Or.inl heqC)
        exact hdone e (hchA.trans hchC)
      · exact absurd hres (by simp)
  · rw [Assign_shrink w ad newSize h1 h2] at hres
    rcases hres with hres | hres <;> split at hres
    · exact absurd hres (by simp)
    · rename_i w1 cur heqA
      injection hres with hres2
      have hchA : WritesAt P w w1 :=
        AssignElements_writesAt w _ ad 0 _ (fun j hj => hPd j) w1
          (Or.inr ⟨cur, heqA⟩)
      have hchD : WritesAt P w1 (DestroyElements w1
          (w.makeStorageView.data.add newSize)
          (w.makeStorageView.size - newSize)) :=
        DestroyElements_writesAt _ _ _ (fun j hj => hPd2 _ j)
      refine hfin _ (hchA.trans hchD) wr ?_ ?_ ?_ ?_ <;> rw [← hres2]
    · rename_i e heqA
      injection hres with hres2
      rw [← hres2]
      exact hdone e (AssignElements_writesAt w _ ad 0 _
        (fun j hj => hPd j) e (Or.inl heqA))
    · rename_i w1 cur heqA
      exact absurd hres (by simp)

/-- A concrete Heap world: N = 2, size 3, heap buffer 0 of capacity 3
holding 0, 1, 2 (the result of Initialize over an iterator). -/
def W6 : World Nat 2 :=
  { alloc := ⟨1, [⟨0, 3, [some 0, some 1, some 2]⟩], []⟩,
    store := ⟨3, true, .allocated 0 3⟩ }

/-- The result of Assign W6 (identity adapter) 2: size 2, slot 2
destroyed, same buffer, no allocator traffic. -/
def W9 : World Nat 2 :=
  { alloc := ⟨1, [⟨0, 3, [some 0, some 1, none]⟩], []⟩,
    store := ⟨2, true, .allocated 0 3⟩ }

/-- Witness for C9 at a concrete input. -/
theorem Assign_within_capacity_frame_witness :
    W9.store.isAllocated = true ∧
    W9.store.getAllocatedData = W6.store.getAllocatedData ∧
    W9.store.getAllocatedCapacity = W6.store.getAllocatedCapacity ∧
    W9.alloc.nextPtr = W6.alloc.nextPtr ∧
    W9.alloc.deallocLog = W6.alloc.deallocLog ∧
    W9.alloc.shape = W6.alloc.shape :=
  Assign_within_capacity_frame W6 ⟨fun j => j, fun _ => false⟩ 2 W9
    (by decide) (by decide) (Or.inl (by rfl))

/-! ### Claim C5 -/

/-- C5: ShrinkToFit on a Heap Storage whose size is at most N relocates
the elements into the inline arena (slot j of the arena ends holding what
slot j of the heap buffer held), sets mode to Inline, keeps the size, and
calls the allocator's deallocate exactly once, passing the original heap
buffer and its original capacity; exactly that buffer is retired. -/
theorem ShrinkToFit_to_inline [Inhabited α] (w : World α N)
    (throws : Nat → Bool) (_hA : w.store.isAllocated = true)
    (hsz : w.store.size ≤ N)
    (hth : ∀ j < w.store.size, throws j = false)
    (hlv : ∀ j < w.store.size,
      (w.read (.heap w.store.getAllocatedData j)).isSome = true)
    (hv : (w.store.inlineView N).length = N) :
    ∃ w', ShrinkToFit w throws = .ok w' ∧
      w'.store.isAllocated = false ∧ w'.store.size = w.store.size ∧
      (∀ j < w.store.size,
        w'.read (.inl j) = w.read (.heap w.store.getAllocatedData j)) ∧
      w'.alloc.deallocLog = w.alloc.deallocLog ++
        [(w.store.getAllocatedData, w.store.getAllocatedCapacity)] ∧
      w'.alloc.bufs = w.alloc.bufs.filter
        (fun b => b.ptr != w.store.getAllocatedData) := by
  have hth0 : ∀ j < w.store.size,
      (moveAdapter w throws).throws (0 + j) = false := fun j hj => by
    show throws (0 + j) = false
    simpa using hth j hj
  set ad := moveAdapter w throws with had
  set w2 := constructRun w (.inl 0) ad 0 w.store.size with hw2
  set w3 := DestroyElements w2 (.heap w.store.getAllocatedData 0)
    w.store.size with hw3
  have hres0 : ShrinkToFit w throws = .ok
      { alloc := (w3.alloc.deallocate w.store.getAllocatedData
          w.store.getAllocatedCapacity),
        store := { w3.store with isAllocated := false } } := by
    rw [ShrinkToFit_inline w throws hsz,
      ConstructElements_ok _ _ _ _ _ hth0]
  have hch2 : WritesAt (fun q => ∃ o, q = Ptr.inl o) w w2 := by
    rw [hw2]
    exact constructRun_writesAt _ _ _ _ _ (fun j hj => ⟨0 + j, rfl⟩)
  have hal2 : w2.alloc = w.alloc :=
    hch2.alloc_eq (by rintro q ⟨o, rfl⟩; exact ⟨o, rfl⟩)
  have hch3 : WritesAt
      (fun q => ∃ o, q = Ptr.heap w.store.getAllocatedData o) w2 w3 := by
    rw [hw3]
    exact DestroyElements_writesAt _ _ _ (fun j hj => ⟨0 + j, rfl⟩)
  have hst3 : w3.store = w2.store :=
    hch3.store_eq (by rintro q ⟨o, rfl⟩; exact ⟨_, o, rfl⟩)
  refine ⟨_, hres0, rfl, ?_, ?_, ?_, ?_⟩
  · show w3.store.size = w.store.size
    rw [hst3, hch2.size_eq]
  · intro j hj
    have hcw : w.canWrite ((Ptr.inl 0).add j) := by
      show 0 + j < (w.store.inlineView N).length
      rw [hv]
      omega
    have hget := constructRun_read_in w (.inl 0) ad 0 w.store.size j hj hcw
    obtain ⟨v, hv2⟩ := Option.isSome_iff_exists.1 (hlv j hj)
    rw [hv2]
    show (Storage.inlineView N { w3.store with
      isAllocated := false }).getD j none = some v
    have hview3 : Storage.inlineView N
        { w3.store with isAllocated := false } =
        w2.store.inlineView N := by
      show w3.store.inlineView N = w2.store.inlineView N
      rw [hst3]
    rw [hview3]
    have hval : ad.vals (0 + j) = v := by
      show ((w.alloc.readBuf w.store.getAllocatedData).getD (0 + j)
        none).getD default = v
      have hx : (w.alloc.readBuf w.store.getAllocatedData).getD (0 + j)
          none = some v := by
        rw [Nat.zero_add]
        exact hv2
      rw [hx]
      rfl
    rw [← hval]
    simpa [World.read, Ptr.add] using hget
  · show ((w3.alloc.deallocate w.store.getAllocatedData
      w.store.getAllocatedCapacity)).deallocLog = _
    rw [deallocLog_deallocate, hch3.deallocLog_eq, hal2]
  · show ((w3.alloc.deallocate w.store.getAllocatedData
      w.store.getAllocatedCapacity)).bufs = _
    rw [bufs_deallocate, hch3.filter_eq _ (fun q hq => hq), hal2]

/-- A concrete Heap world with one live element in a capacity-3 buffer. -/
def W5 : World Nat 2 :=
  { alloc := ⟨1, [⟨0, 3, [some 40, none, none]⟩], []⟩,
    store := ⟨1, true, .allocated 0 3⟩ }

/-- Witness for C5 at a concrete input. -/
theorem ShrinkToFit_to_inline_witness :
    ∃ w', ShrinkToFit W5 (fun _ => false) = .ok w' ∧
      w'.store.isAllocated = false ∧ w'.store.size = W5.store.size ∧
      (∀ j < W5.store.size,
        w'.read (.inl j) = W5.read (.heap W5.store.getAllocatedData j)) ∧
      w'.alloc.deallocLog = W5.alloc.deallocLog ++
        [(W5.store.getAllocatedData, W5.store.getAllocatedCapacity)] ∧
      w'.alloc.bufs = W5.alloc.bufs.filter
        (fun b => b.ptr != W5.store.getAllocatedData) :=
  ShrinkToFit_to_inline W5 (fun _ => false) (by decide) (by decide)
    (fun j hj => rfl) (by decide) (by decide)

/-! ### Claim C7 -/

/-- C7: if ShrinkToFit's relocation construction throws partway (in
either relocation branch: into the inline arena, or into a smaller heap
buffer), the original heap pointer and capacity are restored before the
exception propagates: the Storage is left Heap with its original data
pointer, capacity and size, and the original buffer is still outstanding
with its contents intact — the heap representation is never lost. -/
theorem ShrinkToFit_throw_restores [Inhabited α] (w : World α N)
    (throws : Nat → Bool) (hA : w.store.isAllocated = true)
    (hbr : w.store.size ≤ N ∨
      w.store.size < w.store.getAllocatedCapacity)
    (hdfresh : w.store.getAllocatedData < w.alloc.nextPtr)
    (i : Nat) (hi : i < w.store.size) (ht : throws i = true)
    (hmin : ∀ j < i, throws j = false) :
    ∃ e, ShrinkToFit w throws = .error e ∧
      e.store.isAllocated = true ∧ e.store.size = w.store.size ∧
      e.store.getAllocatedData = w.store.getAllocatedData ∧
      e.store.getAllocatedCapacity = w.store.getAllocatedCapacity ∧
      e.alloc.readBuf w.store.getAllocatedData =
        w.alloc.readBuf w.store.getAllocatedData := by
  have ht0 : (moveAdapter w throws).throws (0 + i) = true := by
    show throws (0 + i) = true
    simpa using ht
  have hmin0 : ∀ j < i, (moveAdapter w throws).throws (0 + j) = false :=
    fun j hj => by
      show throws (0 + j) = false
      simpa using hmin j hj
  by_cases hsz : w.store.size ≤ N
  · rw [ShrinkToFit_inline w throws hsz,
      ConstructElements_err _ _ _ _ _ i hi ht0 hmin0]
    set f := constructFail w (.inl 0) (moveAdapter w throws) 0 i with hf
    have hch : WritesAt (fun q => ∃ o, q = Ptr.inl o) w f := by
      rw [hf]
      exact constructFail_writesAt _ _ _ _ _ (fun j hj => ⟨0 + j, rfl⟩)
    have hal : f.alloc = w.alloc :=
      hch.alloc_eq (by rintro q ⟨o, rfl⟩; exact ⟨o, rfl⟩)
    refine ⟨_, rfl, ?_, ?_, rfl, rfl, ?_⟩
    · show f.store.isAllocated = true
      rw [hch.isAllocated_eq]
      exact hA
    · show f.store.size = w.store.size
      rw [hch.size_eq]
    · show f.alloc.readBuf w.store.getAllocatedData = _
      rw [hal]
  · have hlt : w.store.size < w.store.getAllocatedCapacity :=
      hbr.resolve_left hsz
    rw [ShrinkToFit_smaller w throws hsz hlt,
      ConstructElements_err _ _ _ _ _ i hi ht0 hmin0]
    set p := w.alloc.nextPtr with hp
    set w1 : World α N :=
      { w with alloc := (w.alloc.allocate w.store.size).2 } with hw1
    set f := constructFail w1 (.heap p 0) (moveAdapter w throws) 0 i
      with hf
    have hch : WritesAt (fun q => ∃ o, q = Ptr.heap p o) w1 f := by
      rw [hf]
      exact constructFail_writesAt _ _ _ _ _ (fun j hj => ⟨0 + j, rfl⟩)
    have hst : f.store = w.store := by
      rw [hch.store_eq (by rintro q ⟨o, rfl⟩; exact ⟨_, o, rfl⟩)]
    have hdp : w.store.getAllocatedData ≠ p := by omega
    refine ⟨_, rfl, ?_, ?_, rfl, rfl, ?_⟩
    · show f.store.isAllocated = true
      rw [hst]
      exact hA
    · show f.store.size = w.store.size
      rw [hst]
    · show (f.alloc.deallocate p w.store.size).readBuf
        w.store.getAllocatedData = _
      rw [readBuf_deallocate_other _ _ _ _ hdp]
      rw [hch.readBuf_eq _ (by
        rintro q ⟨o, rfl⟩
        intro o2 hcontra
        rw [Ptr.heap.injEq] at hcontra
        exact hdp hcontra.1.symm)]
      show ((w.alloc.allocate w.store.size).2).readBuf
        w.store.getAllocatedData = _
      rw [readBuf_allocate_other _ _ _ hdp]

/-- Witness for C7 at a concrete input (relocation into the inline arena
throws on the first move). -/
theorem ShrinkToFit_throw_restores_witness :
    ∃ e, ShrinkToFit W5 (fun _ => true) = .error e ∧
      e.store.isAllocated = true ∧ e.store.size = W5.store.size ∧
      e.store.getAllocatedData = W5.store.getAllocatedData ∧
      e.store.getAllocatedCapacity = W5.store.getAllocatedCapacity ∧
      e.alloc.readBuf W5.store.getAllocatedData =
        W5.alloc.readBuf W5.store.getAllocatedData :=
  ShrinkToFit_throw_restores W5 (fun _ => true) (by decide)
    (Or.inl (by decide)) (by decide) 0 (by decide) rfl
    (fun j hj => absurd hj (by omega))

/-! ### The heap-capacity invariant (claims C6 and C10) -/

/-- The invariant: whenever the Storage is in Heap mode, the allocated
capacity is strictly greater than N. -/
def capInv (w : World α N) : Prop :=
  w.store.isAllocated = true → N < w.store.getAllocatedCapacity

theorem capInv_of_fields (wx : World α N) (h : capInv wx) (r : World α N)
    (hia : r.store.isAllocated = wx.store.isAllocated)
    (hd : r.store.data = wx.store.data) : capInv r := by
  intro hAr
  have hlt := h (by rw [← hia]; exact hAr)
  show N < r.store.getAllocatedCapacity
  unfold Storage.getAllocatedCapacity
  rw [hd]
  exact hlt

theorem Initialize_capInv (w : World α N) (ad : Adapter α) (k : Nat)
    (hpre : w.store.isAllocated = false) (r : World α N)
    (hr : Initialize w ad k = .ok r ∨ Initialize w ad k = .error r) :
    capInv r := by
  by_cases hk : N < k
  · rw [Initialize_gt w ad k hk] at hr
    set w1 : World α N :=
      { alloc := (w.alloc.allocate k).2,
        store := { w.store with data := .allocated w.alloc.nextPtr k,
                                isAllocated := true } } with hw1
    have hgen : ∀ wx : World α N,
        WritesAt (fun q => ∃ o, q = Ptr.heap w.alloc.nextPtr o) w1 wx →
        capInv wx := by
      intro wx hch hAx
      have hst : wx.store = w1.store :=
        hch.store_eq (by rintro q ⟨o, rfl⟩; exact ⟨_, o, rfl⟩)
      show N < wx.store.getAllocatedCapacity
      rw [hst]
      exact hk
    rcases hr with hr | hr <;> split at hr
    · exact absurd hr (by simp)
    · rename_i w2 c2 heqC
      injection hr with hr2
      have hw2inv : capInv w2 := hgen w2 (ConstructElements_writesAt
        _ _ _ _ _ (fun j hj => ⟨0 + j, rfl⟩) w2 (Or.inr ⟨c2, heqC⟩))
      refine capInv_of_fields w2 hw2inv r ?_ ?_ <;> rw [← hr2]
    · rename_i e heqC
      injection hr with hr2
      rw [← hr2]
      exact hgen e (ConstructElements_writesAt _ _ _ _ _
        (fun j hj => ⟨0 + j, rfl⟩) e (Or.inl heqC))
    · exact absurd hr (by simp)
  · rw [Initialize_le w ad k hk] at hr
    have hgen : ∀ wx : World α N,
        WritesAt (fun q => ∃ o, q = Ptr.inl o) w wx → capInv wx := by
      intro wx hch hAx
      have := hch.isAllocated_eq
      rw [hAx, hpre] at this
      exact absurd this (by decide)
    rcases hr with hr | hr <;> split at hr
    · exact absurd hr (by simp)
    · rename_i w2 c2 heqC
      injection hr with hr2
      have hw2inv : capInv w2 := hgen w2 (ConstructElements_writesAt
        _ _ _ _ _ (fun j hj => ⟨0 + j, rfl⟩) w2 (Or.inr ⟨c2, heqC⟩))
      refine capInv_of_fields w2 hw2inv r ?_ ?_ <;> rw [← hr2]
    · rename_i e heqC
      injection hr with hr2
      rw [← hr2]
      exact hgen e (ConstructElements_writesAt _ _ _ _ _
        (fun j hj => ⟨0 + j, rfl⟩) e (Or.inl heqC))
    · exact absurd hr (by simp)

theorem Assign_capInv (w : World α N) (ad : Adapter α) (k : Nat)
    (hInv : capInv w) (r : World α N)
    (hr : Assign w ad k = .ok r ∨ Assign w ad k = .error r) :
    capInv r := by
  by_cases h1 : k > w.makeStorageView.capacity
  · have hNk : N < k := by
      by_cases hA : w.store.isAllocated = true
      · have h2 := hInv hA
        have hc : w.makeStorageView.capacity =
            w.store.getAllocatedCapacity := by
          rw [makeStorageView_heap w hA]
        omega
      · have hA2 : w.store.isAllocated = false := by
          cases hAb : w.store.isAllocated
          · rfl
          · exact absurd hAb hA
        have hc : w.makeStorageView.capacity = N := by
          rw [makeStorageView_inl w hA2]
        omega
    rw [Assign_grow w ad k h1] at hr
    rcases hr with hr | hr <;> split at hr
    · exact absurd hr (by simp)
    · rename_i w2 c2 heqC
      injection hr with hr2
      rw [← hr2]
      intro _
      show N < k
      exact hNk
    · rename_i e heqC
      injection hr with hr2
      have hch := ConstructElements_writesAt
        (P := fun q => ∃ o, q = Ptr.heap w.alloc.nextPtr o)
        ({ w with alloc := (w.alloc.allocate k).2 } : World α N)
        (.heap w.alloc.nextPtr 0) ad 0 k
        (fun j hj => ⟨0 + j, rfl⟩) e (Or.inl heqC)
      have hst : e.store = w.store := by
        rw [hch.store_eq (by rintro q ⟨o, rfl⟩; exact ⟨_, o, rfl⟩)]
      have hce : capInv e :=
        capInv_of_fields w hInv e (by rw [hst]) (by rw [hst])
      refine capInv_of_fields e hce r ?_ ?_ <;> rw [← hr2]
    · exact absurd hr (by simp)
  · have hout : ∀ wx : World α N,
        WritesAt (fun q => ∃ o, q = w.makeStorageView.data.add o) w wx →
        capInv wx := by
      intro wx hch
      by_cases hA : w.store.isAllocated = true
      · have hst : wx.store = w.store := hch.store_eq (by
          rintro q ⟨o, rfl⟩
          rw [makeStorageView_heap w hA]
          exact ⟨_, 0 + o, rfl⟩)
        exact capInv_of_fields w hInv wx (by rw [hst]) (by rw [hst])
      · intro hAx
        have hia := hch.isAllocated_eq
        rw [hAx] at hia
        cases hAb : w.store.isAllocated
        · rw [hAb] at hia
          exact absurd hia (by decide)
        · exact absurd hAb hA
    have hPd : ∀ j : Nat,
        (fun q => ∃ o, q = w.makeStorageView.data.add o)
          (w.makeStorageView.data.add j) := fun j => ⟨j, rfl⟩
    have hPd2 : ∀ off j : Nat,
        (fun q => ∃ o, q = w.makeStorageView.data.add o)
          ((w.makeStorageView.data.add off).add j) := fun off j =>
      ⟨off + j, Ptr.add_add _ _ _⟩
    by_cases h2 : k > w.makeStorageView.size
    · rw [Assign_mid w ad k h1 h2] at hr
      rcases hr with hr | hr <;> split at hr
      · exact absurd hr (by simp)
      · rename_i w1 cur heqA
        split at hr
        · exact absurd hr (by simp)
        · rename_i w2 c2 heqC
          injection hr with hr2
          have hchA : WritesAt
              (fun q => ∃ o, q = w.makeStorageView.data.add o) w w1 :=
            AssignElements_writesAt w _ ad 0 _ (fun j hj => hPd j) w1
              (Or.inr ⟨cur, heqA⟩)
          have hchC : WritesAt
              (fun q => ∃ o, q = w.makeStorageView.data.add o) w1 w2 :=
            ConstructElements_writesAt w1 _ ad cur _
              (fun j hj => hPd2 _ j) w2 (Or.inr ⟨c2, heqC⟩)
          refine capInv_of_fields w2 (hout w2 (hchA.trans hchC)) r ?_ ?_ <;>
            rw [← hr2]
      · rename_i e heqA
        injection hr with hr2
        rw [← hr2]
        exact hout e (AssignElements_writesAt w _ ad 0 _
          (fun j hj => hPd j) e (Or.inl heqA))
      · rename_i w1 cur heqA
        split at hr
        · rename_i e heqC
          injection hr with hr2
          rw [← hr2]
          have hchA : WritesAt
              (fun q => ∃ o, q = w.makeStorageView.data.add o) w w1 :=
            AssignElements_writesAt w _ ad 0 _ (fun j hj => hPd j) w1
              (Or.inr ⟨cur, heqA⟩)
          have hchC : WritesAt
              (fun q => ∃ o, q = w.makeStorageView.data.add o) w1 e :=
            ConstructElements_writesAt w1 _ ad cur _
              (fun j hj => hPd2 _ j) e (Or.inl heqC)
          exact hout e (hchA.trans hchC)
        · exact absurd hr (by simp)
    · rw [Assign_shrink w ad k h1 h2] at hr
      rcases hr with hr | hr <;> split at hr
      · exact absurd hr (by simp)
      · rename_i w1 cur heqA
        injection hr with hr2
        have hchA : WritesAt
            (fun q => ∃ o, q = w.makeStorageView.data.add o) w w1 :=
          AssignElements_writesAt w _ ad 0 _ (fun j hj => hPd j) w1
            (Or.inr ⟨cur, heqA⟩)
        have hchD : WritesAt
            (fun q => ∃ o, q = w.makeStorageView.data.add o) w1
            (DestroyElements w1
            (w.makeStorageView.data.add k)
            (w.makeStorageView.size - k)) :=
          DestroyElements_writesAt _ _ _ (fun j hj => hPd2 _ j)
        refine capInv_of_fields _ (hout _ (hchA.trans hchD)) r ?_ ?_ <;>
          rw [← hr2]
      · rename_i e heqA
        injection hr with hr2
        rw [← hr2]
        exact hout e (AssignElements_writesAt w _ ad 0 _
          (fun j hj => hPd j) e (Or.inl heqA))
      · exact absurd hr (by simp)

theorem ShrinkToFit_capInv [Inhabited α] (w : World α N)
    (throws : Nat → Bool) (hA : w.store.isAllocated = true)
    (hInv : capInv w) (r : World α N)
    (hr : ShrinkToFit w throws = .ok r ∨
      ShrinkToFit w throws = .error r) : capInv r := by
  by_cases hsz : w.store.size ≤ N
  · rw [ShrinkToFit_inline w throws hsz] at hr
    rcases hr with hr | hr <;> split at hr
    · exact absurd hr (by simp)
    · rename_i w2 c2 heqC
      injection hr with hr2
      rw [← hr2]
      intro hAr
      exact absurd hAr (by simp)
    · rename_i e heqC
      injection hr with hr2
      rw [← hr2]
      intro _
      show N < w.store.getAllocatedCapacity
      exact hInv hA
    · exact absurd hr (by simp)
  · by_cases hlt : w.store.size < w.store.getAllocatedCapacity
    · rw [ShrinkToFit_smaller w throws hsz hlt] at hr
      rcases hr with hr | hr <;> split at hr
      · exact absurd hr (by simp)
      · rename_i w2 c2 heqC
        injection hr with hr2
        rw [← hr2]
        intro _
        show N < w.store.size
        omega
      · rename_i e heqC
        injection hr with hr2
        rw [← hr2]
        intro _
        show N < w.store.getAllocatedCapacity
        exact hInv hA
      · exact absurd hr (by simp)
    · rw [ShrinkToFit_full w throws hsz hlt] at hr
      rcases hr with hr | hr
      · injection hr with hr2
        rw [← hr2]
        exact hInv
      · exact absurd hr (by simp)

theorem Reachable_capInv {α : Type} [Inhabited α] {N : Nat}
    (w : World α N) (h : Reachable α N w) : capInv w := by
  induction h with
  | empty => exact fun hc => by simp [emptyWorld] at hc
  | initOk hre hpre hsz heq ih =>
      exact Initialize_capInv _ _ _ hpre _ (Or.inl heq)
  | initErr hre hpre hsz heq ih =>
      exact Initialize_capInv _ _ _ hpre _ (Or.inr heq)
  | assignOk hre heq ih => exact Assign_capInv _ _ _ ih _ (Or.inl heq)
  | assignErr hre heq ih => exact Assign_capInv _ _ _ ih _ (Or.inr heq)
  | shrinkOk hre hpre heq ih =>
      exact ShrinkToFit_capInv _ _ hpre ih _ (Or.inl heq)
  | shrinkErr hre hpre heq ih =>
      exact ShrinkToFit_capInv _ _ hpre ih _ (Or.inr heq)

/-! ### Claim C10 -/

/-- C10: in every Storage state reachable from the empty Inline state
through Initialize, Assign, and ShrinkToFit (along success or exception
outcomes alike), whenever the mode is Heap the allocated capacity is
strictly greater than N; consequently a Heap Storage with size ≤ N
always has size strictly less than its capacity. -/
theorem reachable_heap_capacity {α : Type} [Inhabited α] {N : Nat}
    (w : World α N) (h : Reachable α N w)
    (hA : w.store.isAllocated = true) :
    N < w.store.getAllocatedCapacity ∧
    (w.store.size ≤ N → w.store.size < w.store.getAllocatedCapacity) := by
  have hc := Reachable_capInv w h hA
  exact ⟨hc, fun hs => by omega⟩

/-- W6 arises from Initialize over the iterator 0,1,2 on the empty
state. -/
theorem W6_reachable : Reachable Nat 2 W6 :=
  Reachable.initOk .empty rfl rfl
    (show Initialize (emptyWorld Nat 2) ⟨fun j => j, fun _ => false⟩ 3 =
      .ok W6 from rfl)

/-- Witness for C10 at a concrete reachable Heap world. -/
theorem reachable_heap_capacity_witness :
    2 < W6.store.getAllocatedCapacity ∧
    (W6.store.size ≤ 2 → W6.store.size < W6.store.getAllocatedCapacity) :=
  reachable_heap_capacity W6 W6_reachable (by decide)

/-! ### Claim C6 -/

/-- C6: for every reachable Heap Storage whose size equals its current
capacity, ShrinkToFit changes nothing: it returns the very same world —
size, mode, data pointer, capacity and all elements unchanged — and no
allocator call is made (the allocator state is part of the world). -/
theorem ShrinkToFit_noop {α : Type} [Inhabited α] {N : Nat}
    (w : World α N) (throws : Nat → Bool) (h : Reachable α N w)
    (hA : w.store.isAllocated = true)
    (heq : w.store.size = w.store.getAllocatedCapacity) :
    ShrinkToFit w throws = .ok w := by
  have hc := Reachable_capInv w h
  have hcap := hc hA
  exact ShrinkToFit_full w throws (by omega) (by omega)

/-- Witness for C6: a full Heap world (size = capacity = 3 > N = 2). -/
theorem ShrinkToFit_noop_witness :
    ShrinkToFit W6 (fun _ => false) = .ok W6 :=
  ShrinkToFit_noop W6 (fun _ => false) W6_reachable (by decide)
    (by decide)

end InlinedVectorModel
